import Mathlib

/-!
timelyrefaker: schema expansion and batched row emission

A shallow embedding of `src/config.go` and `src/generator.go`, followed by the
properties of the expander (`NewGenerator`), of the `CREATE TABLE` renderer
(`generateCreateTable`) and of the batched writer (`Generate`).

Conventions of the embedding.

* Go `string` is `String`; `len(s)` and `strings.Builder.Len()` are the UTF-8
  byte count `String.utf8ByteSize`.
* Go `int` / `int64` values are `Int`; where the source computes with them the
  two's-complement wrap is explicit (`wrapInt64`, `wrapUint64`).
* A Go `map` is the list of its entries in the order in which the `range`
  statement visits them; that order is an input of the model.
* The output file is the list of the strings passed to `WriteString`, in call
  order; its contents are their concatenation. File-system calls succeed.
* A run-time panic ends the run; the writes made before it stay in the file.
* Memory: the one allocation whose size depends on the configuration,
  `make([]byte, length)` of the `string` case, fails above the run-time's
  allocation limit and above the memory of the host (`Host.memLimit`); every
  other allocation succeeds.
-/

namespace Refaker

/-! ## Data model (`config.go`) -/

/-- Instant of a Go `time.Time`: nanoseconds since the Unix epoch and the name of
its location. -/
structure GoTime where
  ns : Int
  loc : String
deriving DecidableEq, Repr

/-- Dynamic value of an `any` (interface) field after YAML decoding. A
`float64` is carried by its IEEE-754 bit pattern. -/
inductive GoAny where
  | nil
  | int (v : Int)
  | uint64 (v : Nat)
  | float64 (bits : Nat)
  | time (t : GoTime)
  | str (s : String)
  | bool (b : Bool)
deriving DecidableEq, Repr

/-- Go struct `ValueRange`. -/
structure ValueRange where
  Start : GoAny
  End : GoAny
deriving DecidableEq, Repr

/-- Go struct `FieldSchema` (its field `Type` is `Typ` here); `Range` is a
nilable pointer, `Nullable` a float64 carried by its bit pattern. -/
structure FieldSchema where
  Name : String
  Count : Int
  Nullable : Nat
  Range : Option ValueRange
  Typ : String
deriving DecidableEq, Repr

/-- Go struct `Schema`; both maps are given in visiting order. -/
structure Schema where
  StorageFormat : String
  Fields : List (String × List FieldSchema)
  TableProps : List (String × String)
deriving DecidableEq, Repr

/-- Go struct `Config`. -/
structure Config where
  NumRows : Int
  Schema : Schema
  TableName : String
  WriteBatchNum : Int
  PreQueries : List String
  PostQueries : List String
deriving DecidableEq, Repr

/-- Go struct `Generator`. -/
structure Generator where
  numRows : Int
  tableName : String
  batchNum : Int
  storageFormat : String
  tableProps : List (String × String)
  fieldDefs : List FieldSchema
  preQueries : List String
  postQueries : List String
deriving DecidableEq, Repr

/-! ## Library functions used by the source -/

/-- Go `strings.Join(elems, sep)`. -/
def stringsJoin : List String → String → String
  | [], _ => ""
  | [a], _ => a
  | a :: b :: rest, sep => a ++ sep ++ stringsJoin (b :: rest) sep

/-- The constant `charset` of `generator.go`. -/
def charset : String :=
  "abcdefghijklmnopqrstuvwxyzABCDEFGHIJKLMNOPQRSTUVWXYZ0123456789"

/-- Two's-complement reduction of an integer to the `int64` range. -/
def wrapInt64 (x : Int) : Int := (x + 2 ^ 63) % 2 ^ 64 - 2 ^ 63

/-- Reduction of an integer to the `uint64` range. -/
def wrapUint64 (x : Int) : Int := x % 2 ^ 64

/-- Run-time failures that end the run: the panics the program can raise and the
fatal error of the allocator when the host has no memory left. -/
inductive Panic where
  | divideByZero
  | typeAssertion
  | randInvalidArg
  | makeSliceLen
  | outOfMemory
deriving DecidableEq, Repr

/-- The run-time constant `maxAlloc` of a 64-bit platform with 48 address bits:
`make([]byte, n)` panics with `makeslice: len out of range` when `n` is negative
or above it. -/
def maxAlloc : Int := 2 ^ 48

/-- The process-wide random source of `math/rand`: an arbitrary sequence of raw
draws and the number of draws consumed so far. -/
structure Rng where
  draws : Nat → Nat
  pos : Nat

/-- The raw value of the next draw. -/
def Rng.peek (r : Rng) : Nat := r.draws r.pos

/-- The source after one draw. -/
def Rng.advance (r : Rng) : Rng := { r with pos := r.pos + 1 }

/-- Go `rand.Int63n(n)`: panics when `n <= 0`, otherwise a value of `[0, n)`.
The value is the next draw reduced modulo `n`, so every value of `[0, n)` is
reached by some draw. -/
def randInt63n (n : Int) (r : Rng) : Except Panic (Int × Rng) :=
  if n ≤ 0 then .error .randInvalidArg
  else .ok (((r.peek : Int) % n), r.advance)

/-- Go `rand.Intn(n)`: panics when `n <= 0`, otherwise a value of `[0, n)`. -/
def randIntn (n : Int) (r : Rng) : Except Panic (Int × Rng) :=
  if n ≤ 0 then .error .randInvalidArg
  else .ok (((r.peek : Int) % n), r.advance)

/-- Go `rand.Int()`: a non-negative 63-bit integer. -/
def randInt (r : Rng) : Int × Rng := (((r.peek % 2 ^ 63 : Nat) : Int), r.advance)

/-- Library behaviour the embedding does not interpret: floating-point sampling
and formatting, and the calendar. `floatToken lo hi u` stands for
`fmt.Sprintf("%f", rand.Float64()*(hi-lo)+lo)` where `lo`, `hi` are bit patterns
and `u` the raw draw behind `rand.Float64()`; `formatTime t` stands for
`t.Format("2006-01-02 15:04:05.000")`; `localMin` and `localMax` are
`time.Date(2023, 1, 1, 0, 0, 0, 0, time.Local)` and
`time.Date(2023, 12, 31, 23, 59, 59, 0, time.Local)`; `memLimit` is the largest
`n` for which the host has the memory to serve `make([]byte, n)`: a larger
request that passes the size check of `make` ends the run with the fatal error
`out of memory`. -/
structure Host where
  floatToken : Nat → Nat → Nat → String
  formatTime : GoTime → String
  localMin : GoTime
  localMax : GoTime
  memLimit : Nat

/-- Bit pattern of the float64 `-100`. -/
def floatNeg100 : Nat := 0xC059000000000000

/-- Bit pattern of the float64 `100`. -/
def floatPos100 : Nat := 0x4059000000000000

/-- Go `t.Sub(u)`: the difference in nanoseconds, saturated to the `int64`
range of `time.Duration`. -/
def timeSub (t u : GoTime) : Int :=
  let d := t.ns - u.ns
  if d < -(2 ^ 63) then -(2 ^ 63) else if 2 ^ 63 - 1 < d then 2 ^ 63 - 1 else d

/-- Go `t.Add(d)`. -/
def timeAdd (t : GoTime) (d : Int) : GoTime := { t with ns := t.ns + d }

/-- Type assertion `x.(int)`. -/
def assertInt : GoAny → Except Panic Int
  | .int v => .ok v
  | _ => .error .typeAssertion

/-- Type assertion `x.(uint64)`. -/
def assertUint64 : GoAny → Except Panic Nat
  | .uint64 v => .ok v
  | _ => .error .typeAssertion

/-- Type assertion `x.(float64)`. -/
def assertFloat64 : GoAny → Except Panic Nat
  | .float64 b => .ok b
  | _ => .error .typeAssertion

/-- Type assertion `x.(time.Time)`. -/
def assertTime : GoAny → Except Panic GoTime
  | .time t => .ok t
  | _ => .error .typeAssertion

/-! ## `NewGenerator` -/

/-- The loop `for i := 0; i < fSchema.Count; i++` of `NewGenerator`, entered with
`k` iterations left at index `i`: each iteration overwrites `Name` and `Type` of
the loop variable and appends a copy of it. -/
def countLoop (typ : String) (fSchema : FieldSchema) :
    Nat → Nat → List FieldSchema → List FieldSchema
  | 0, _, fieldDefs => fieldDefs
  | k + 1, i, fieldDefs =>
    let colName := "col_" ++ typ ++ toString i
    let fSchema := { fSchema with Name := colName, Typ := typ }
    countLoop typ fSchema k (i + 1) (fieldDefs ++ [fSchema])

/-- Body of the loop over one type's field list in `NewGenerator`. -/
def expandEntry (typ : String) (fieldDefs : List FieldSchema) (fSchema : FieldSchema) :
    List FieldSchema :=
  if fSchema.Count ≠ 0 then
    countLoop typ fSchema fSchema.Count.toNat 0 fieldDefs
  else
    fieldDefs ++ [{ fSchema with Typ := typ }]

/-- Go `NewGenerator`: expands the field map, visited in the given order, into
the flat column list and copies the other settings. The error result is always
`nil`. -/
def NewGenerator (config : Config) : Except String Generator :=
  let fieldDefs := config.Schema.Fields.foldl
    (fun fieldDefs entry => entry.2.foldl (expandEntry entry.1) fieldDefs) []
  .ok {
    numRows := config.NumRows
    tableName := config.TableName
    batchNum := config.WriteBatchNum
    storageFormat := config.Schema.StorageFormat
    tableProps := config.Schema.TableProps
    fieldDefs := fieldDefs
    preQueries := config.PreQueries
    postQueries := config.PostQueries }

/-! ## Rendering helpers of `Generator` -/

/-- Go `generatePreQueries`. -/
def Generator.generatePreQueries (g : Generator) : List String := g.preQueries

/-- Go `generatePostQueries`. -/
def Generator.generatePostQueries (g : Generator) : List String := g.postQueries

/-- Go `generateFileName`. -/
def Generator.generateFileName (g : Generator) : String := g.tableName ++ ".sql"

/-- Go `generateCreateTable`: the builder is threaded through the same sequence
of writes as in the source. -/
def Generator.generateCreateTable (g : Generator) : String :=
  let builder := ""
  let builder := builder ++ ("CREATE TABLE " ++ g.tableName ++ " (")
  let fields := g.fieldDefs.foldl
    (fun fields fieldDef => fields ++ [fieldDef.Name ++ " " ++ fieldDef.Typ]) []
  let builder := builder ++ stringsJoin fields ","
  let builder := builder ++ (") STORED AS " ++ g.storageFormat)
  let builder :=
    if g.tableProps.length > 0 then
      let builder := builder ++ " TBLPROPERTIES("
      let props := g.tableProps.foldl
        (fun props kv => props ++ ["'" ++ kv.1 ++ "'='" ++ kv.2 ++ "'"]) []
      let builder := builder ++ stringsJoin props ","
      builder ++ ")"
    else builder
  builder ++ ";\n"

/-- Go `writeStrs`: one `WriteString(q + ";\n")` per query, appended to the
writes already made. -/
def writeStrs (out : List String) (queries : List String) : List String :=
  queries.foldl (fun out q => out ++ [q ++ ";\n"]) out

/-! ## `Generate` -/

/-- The loop `for i := range result` of the `string` case: `k` bytes are still
to be filled, each with `charset[rand.Intn(len(charset))]`. -/
def fillString : Nat → Rng → Except Panic (List Char × Rng)
  | 0, r => .ok ([], r)
  | k + 1, r =>
    match randIntn (charset.utf8ByteSize : Nat) r with
    | .error p => .error p
    | .ok (idx, r1) =>
      match fillString k r1 with
      | .error p => .error p
      | .ok (cs, r2) => .ok (charset.data.getD idx.toNat 'a' :: cs, r2)

/-- The `switch fieldDef.Type` of `Generate`: the token of one column, or the
panic raised while computing it, and the random source afterwards. -/
def genValue (h : Host) (fieldDef : FieldSchema) (r : Rng) : Except Panic (String × Rng) :=
  if fieldDef.Typ = "int" then
    match (match fieldDef.Range with
      | some rg =>
        match assertInt rg.Start with
        | .error p => Except.error p
        | .ok s =>
          match assertInt rg.End with
          | .error p => Except.error p
          | .ok e => Except.ok (wrapInt64 s, wrapInt64 e)
      | none => Except.ok (-100, 100)) with
    | .error p => .error p
    | .ok (minInt, maxInt) =>
      match randInt63n (wrapInt64 (maxInt - minInt)) r with
      | .error p => .error p
      | .ok (v, r1) => .ok (toString (wrapInt64 (minInt + v)), r1)
  else if fieldDef.Typ = "float" then
    match (match fieldDef.Range with
      | some rg =>
        match assertFloat64 rg.Start with
        | .error p => Except.error p
        | .ok s =>
          match assertFloat64 rg.End with
          | .error p => Except.error p
          | .ok e => Except.ok (s, e)
      | none => Except.ok (floatNeg100, floatPos100)) with
    | .error p => .error p
    | .ok (minFloat, maxFloat) => .ok (h.floatToken minFloat maxFloat r.peek, r.advance)
  else if fieldDef.Typ = "uint" then
    match (match fieldDef.Range with
      | some rg =>
        match assertUint64 rg.Start with
        | .error p => Except.error p
        | .ok s =>
          match assertUint64 rg.End with
          | .error p => Except.error p
          | .ok e => Except.ok ((s : Int), (e : Int))
      | none => Except.ok (0, 100)) with
    | .error p => .error p
    | .ok (minUint, maxUint) =>
      match randInt63n (wrapInt64 (wrapUint64 (maxUint - minUint))) r with
      | .error p => .error p
      | .ok (v, r1) => .ok (toString (wrapUint64 (wrapUint64 v + minUint)), r1)
  else if fieldDef.Typ = "string" then
    match (match fieldDef.Range with
      | some rg =>
        match assertInt rg.Start with
        | .error p => Except.error p
        | .ok s =>
          match assertInt rg.End with
          | .error p => Except.error p
          | .ok e => Except.ok (s, e)
      | none => Except.ok (0, 5)) with
    | .error p => .error p
    | .ok (minLen, maxLen) =>
      match randIntn (wrapInt64 (wrapInt64 (maxLen - minLen) + 1)) r with
      | .error p => .error p
      | .ok (v, r1) =>
        let length := wrapInt64 (v + minLen)
        if length < 0 ∨ maxAlloc < length then .error .makeSliceLen
        else if (h.memLimit : Int) < length then .error .outOfMemory
        else
          match fillString length.toNat r1 with
          | .error p => .error p
          | .ok (result, r2) => .ok (String.mk result, r2)
  else if fieldDef.Typ = "timestamp" then
    match (match fieldDef.Range with
      | some rg =>
        match assertTime rg.Start with
        | .error p => Except.error p
        | .ok s =>
          match assertTime rg.End with
          | .error p => Except.error p
          | .ok e => Except.ok (s, e)
      | none => Except.ok (h.localMin, h.localMax)) with
    | .error p => .error p
    | .ok (minTime, maxTime) =>
      let duration := timeSub maxTime minTime
      match randInt63n duration r with
      | .error p => .error p
      | .ok (randomDuration, r1) => .ok (h.formatTime (timeAdd minTime randomDuration), r1)
  else if fieldDef.Typ = "boolean" then
    let (v, r1) := randInt r
    .ok (if Int.tmod v 2 = 0 then "true" else "false", r1)
  else
    .ok ("", r)

/-- The loop `for j, fieldDef := range g.fieldDefs` of `Generate`: the tokens of
one row, in column order. -/
def genRow (h : Host) : List FieldSchema → Rng → Except Panic (List String × Rng)
  | [], r => .ok ([], r)
  | fieldDef :: rest, r =>
    match genValue h fieldDef r with
    | .error p => .error p
    | .ok (val, r1) =>
      match genRow h rest r1 with
      | .error p => .error p
      | .ok (vals, r2) => .ok (val :: vals, r2)

/-- State of `Generate` when its row loop is left: the writes made to the file,
the builder, the random source, and the panic that ended the loop, if any. -/
structure LoopEnd where
  out : List String
  builder : String
  rng : Rng
  panic : Option Panic

/-- The header written to the builder when a group is opened. -/
def Generator.groupHeader (g : Generator) : String :=
  "BATCHINSERT INTO " ++ g.tableName ++ " BATCHVALUES("

/-- The loop `for i := int64(1); i <= g.numRows; i++` of `Generate`, entered at
row `i` with `k` rows left (`k = numRows - i + 1`). The counter is an unbounded
integer, which agrees with the `int64` counter as long as `i + 1` does not wrap,
that is for every `numRows < 2^63 - 1`. -/
def rowLoop (h : Host) (g : Generator) :
    Nat → Int → List String → String → Rng → LoopEnd
  | 0, _, out, builder, r => ⟨out, builder, r, none⟩
  | k + 1, i, out, builder, r =>
    match genRow h g.fieldDefs r with
    | .error p => ⟨out, builder, r, some p⟩
    | .ok (batchValue, r1) =>
      let builder := builder ++ ("VALUES (" ++ stringsJoin batchValue "," ++ ")")
      if g.batchNum = 0 then ⟨out, builder, r1, some .divideByZero⟩
      else if Int.tmod i g.batchNum = 0 then
        let builder := builder ++ ");\n"
        let out := out ++ [builder]
        rowLoop h g k (i + 1) out g.groupHeader r1
      else
        let builder := if i ≠ g.numRows then builder ++ "," else builder
        rowLoop h g k (i + 1) out builder r1

/-- Outcome of a run of `Generate`: the name of the file created, the strings
written to it in order, and the panic that ended the run (`none` when
`Generate` returned `nil`). -/
structure Run where
  fileName : String
  writes : List String
  panic : Option Panic

/-- Go `Generate`. -/
def Generator.Generate (h : Host) (g : Generator) (r : Rng) : Run :=
  let out := writeStrs [] g.generatePreQueries
  let out := out ++ [g.generateCreateTable]
  let st := rowLoop h g g.numRows.toNat 1 out g.groupHeader r
  match st.panic with
  | some p => ⟨g.generateFileName, st.out, some p⟩
  | none =>
    let out :=
      if st.builder.utf8ByteSize > 0 ∧
          st.builder.utf8ByteSize ≠ 30 + g.tableName.utf8ByteSize then
        st.out ++ [st.builder ++ ");\n"]
      else st.out
    ⟨g.generateFileName, writeStrs out g.generatePostQueries, none⟩

/-- Contents of the file after the given writes. -/
def fileContents : List String → String
  | [] => ""
  | w :: ws => w ++ fileContents ws

/-! ## Notions used to state the properties -/

/-- One row item of a group: `VALUES (` + the tokens joined by `,` + `)`. -/
def valuesItem (tokens : List String) : String :=
  "VALUES (" ++ stringsJoin tokens "," ++ ")"

/-- A complete group: the header, the items joined by `,`, and the closing
`);` with its newline. -/
def Generator.renderGroup (g : Generator) (items : List String) : String :=
  g.groupHeader ++ stringsJoin items "," ++ ");\n"

/-- Items held by the builder while more rows are to come: each is followed by
a `,`. -/
def trail : List String → String
  | [] => ""
  | x :: xs => x ++ "," ++ trail xs

/-- The rows the value generator yields for `k` successive rows, in row order,
up to the first panic, and that panic if there is one. -/
def genRows (h : Host) (cols : List FieldSchema) : Nat → Rng → List (List String) × Option Panic
  | 0, _ => ([], none)
  | k + 1, r =>
    match genRow h cols r with
    | .error p => ([], some p)
    | .ok (row, r1) => ((row :: (genRows h cols k r1).1), (genRows h cols k r1).2)

/-- Splitting of the items of rows `i, i+1, ...` into groups by the boundary
test of the writer: a row whose index is a multiple of `B` ends its group.
`cur` holds the items of the group under construction. The result is the list
of the groups ended and the items left in the last, unended group. -/
def scanBy (B : Int) : Int → List String → List String → List (List String) × List String
  | _, cur, [] => ([], cur)
  | i, cur, x :: xs =>
    if Int.tmod i B = 0 then
      ((cur ++ [x]) :: (scanBy B (i + 1) [] xs).1, (scanBy B (i + 1) [] xs).2)
    else scanBy B (i + 1) (cur ++ [x]) xs

/-- The groups of a complete run: the groups ended at a boundary and, when it
is not empty, the last partial group. -/
def allGroups (B : Int) (items : List String) : List (List String) :=
  (scanBy B 1 [] items).1 ++
    (if (scanBy B 1 [] items).2 = [] then [] else [(scanBy B 1 [] items).2])

/-- Columns on which the value generator cannot panic: the range is absent, or
it holds two values of the dynamic type the tag requires whose span is not empty
and fits the signed 64-bit argument of the sampler (for `string`, two lengths
`0 <= start <= end` with `end` within the allocation limit and the memory of the
host, and without a range a host with memory for the default length 5). Columns
of type `boolean` or of an unknown type never panic. -/
def colOK (h : Host) (f : FieldSchema) : Bool :=
  if f.Typ = "int" then
    match f.Range with
    | none => true
    | some rg =>
      match rg.Start, rg.End with
      | .int s, .int e => decide (-(2 ^ 63) ≤ s ∧ s < e ∧ e < 2 ^ 63 ∧ e - s < 2 ^ 63)
      | _, _ => false
  else if f.Typ = "float" then
    match f.Range with
    | none => true
    | some rg =>
      match rg.Start, rg.End with
      | .float64 _, .float64 _ => true
      | _, _ => false
  else if f.Typ = "uint" then
    match f.Range with
    | none => true
    | some rg =>
      match rg.Start, rg.End with
      | .uint64 s, .uint64 e => decide (s < e ∧ e < 2 ^ 64 ∧ e - s < 2 ^ 63)
      | _, _ => false
  else if f.Typ = "string" then
    match f.Range with
    | none => decide (5 ≤ h.memLimit)
    | some rg =>
      match rg.Start, rg.End with
      | .int s, .int e => decide (0 ≤ s ∧ s ≤ e ∧ e ≤ maxAlloc ∧ e ≤ h.memLimit)
      | _, _ => false
  else if f.Typ = "timestamp" then
    match f.Range with
    | none => decide (0 < timeSub h.localMax h.localMin)
    | some rg =>
      match rg.Start, rg.End with
      | .time s, .time e => decide (0 < timeSub e s)
      | _, _ => false
  else true

/-- Every column of the list passes `colOK`. -/
def ColsOK (h : Host) (cols : List FieldSchema) : Prop := cols.all (colOK h) = true

instance (h : Host) (cols : List FieldSchema) : Decidable (ColsOK h cols) := by
  unfold ColsOK; infer_instance

/-- The writes of a complete run laid out as the prelude lines, the
`CREATE TABLE` line, the given group writes and the postlude lines. -/
def GroupWrites (g : Generator) (run : Run) (groups : List String) : Prop :=
  run.writes =
    g.preQueries.map (fun q => q ++ ";\n") ++ [g.generateCreateTable] ++ groups ++
      g.postQueries.map (fun q => q ++ ";\n")

/-- The columns contributed by one entry of a type's field list: what the body
of the expansion loop appends for it. -/
def entryCols (typ : String) (fSchema : FieldSchema) : List FieldSchema :=
  expandEntry typ [] fSchema

/-- The columns contributed by one type tag: what the loop over its field list
appends. -/
def typeCols (entry : String × List FieldSchema) : List FieldSchema :=
  entry.2.foldl (expandEntry entry.1) []

/-! ## Sample inputs -/

/-- An entry with `count: 1` whose own name is a synthetic column name. -/
def clashEntry : FieldSchema := ⟨"col_int0", 1, 0, none, ""⟩

/-- A configuration whose only field entry is `clashEntry` under `int`. -/
def clashConfig : Config :=
  { NumRows := 1, TableName := "t", WriteBatchNum := 1, PreQueries := [], PostQueries := [],
    Schema := { StorageFormat := "orc", Fields := [("int", [clashEntry])], TableProps := [] } }

/-- A configuration with two type tags: `int` with a counted and a named entry,
`boolean` with a counted entry. -/
def mixedConfig : Config :=
  { NumRows := 1, TableName := "t", WriteBatchNum := 1, PreQueries := [], PostQueries := [],
    Schema :=
      { StorageFormat := "orc"
        TableProps := []
        Fields := [("int", [⟨"ignored", 2, 0, none, ""⟩, ⟨"id", 0, 0, none, ""⟩]),
                   ("boolean", [⟨"", 1, 0, none, ""⟩])] } }


/-- A host with fixed answers for the uninterpreted library functions. -/
def sampleHost : Host :=
  ⟨fun _ _ _ => "0.000000", fun _ => "2023-01-01 00:00:00.000", ⟨0, "Local"⟩, ⟨1, "Local"⟩,
   1000000⟩

/-- A fixed sequence of draws. -/
def sampleRng : Rng := ⟨fun n => 7 * n + 3, 0⟩

/-- One `int` column named `c` with range `[0, 10)`. -/
def intCol : FieldSchema := ⟨"c", 0, 0, some ⟨.int 0, .int 10⟩, "int"⟩

/-- Scenario S3: five rows in batches of two, one `int` column. -/
def batchGen : Generator :=
  { numRows := 5, tableName := "t", batchNum := 2, storageFormat := "parquet",
    tableProps := [], fieldDefs := [intCol], preQueries := [], postQueries := [] }

/-- One row, one `int` column whose range start is a string. -/
def badRangeGen : Generator :=
  { numRows := 1, tableName := "t", batchNum := 1, storageFormat := "parquet",
    tableProps := [], preQueries := [], postQueries := [],
    fieldDefs := [⟨"c", 0, 0, some ⟨.str "a", .int 3⟩, "int"⟩] }

/-- Two rows in one batch, one `uint` column whose range bounds were decoded as
`int` (as YAML does for `start: 0`, `end: 100`). -/
def uintIntRangeGen : Generator :=
  { numRows := 2, tableName := "t", batchNum := 2, storageFormat := "parquet",
    tableProps := [], preQueries := [], postQueries := [],
    fieldDefs := [⟨"col_uint0", 1, 0, some ⟨.int 0, .int 100⟩, "uint"⟩] }

/-- Scenario S1: the empty table. -/
def emptyConfig : Config :=
  { NumRows := 0, TableName := "t", WriteBatchNum := 10, PreQueries := [], PostQueries := [],
    Schema := { StorageFormat := "parquet", Fields := [], TableProps := [] } }

/-- The generator `NewGenerator` builds for scenario S1. -/
def emptyGen : Generator :=
  { numRows := 0, tableName := "t", batchNum := 10, storageFormat := "parquet",
    tableProps := [], fieldDefs := [], preQueries := [], postQueries := [] }

/-- Scenario S4: a prelude of two statements and a postlude of one. -/
def preludeGen : Generator :=
  { numRows := 3, tableName := "t", batchNum := 2, storageFormat := "parquet",
    tableProps := [], fieldDefs := [intCol],
    preQueries := ["SET x=1", "USE db"], postQueries := ["ANALYZE t"] }

/-- The generator of scenario S4 with batch size zero. -/
def zeroBatchGen : Generator := { preludeGen with batchNum := 0 }

/-- An `int` column with range `[-2^62, 2^62)`: both bounds are `int64` values,
their difference is `2^63`. -/
def wideIntCol : FieldSchema :=
  ⟨"c", 0, 0, some ⟨.int (-4611686018427387904), .int 4611686018427387904⟩, "int"⟩

/-- Two `count: 1` entries under the one type tag `int`. -/
def dupConfig : Config :=
  { NumRows := 1, TableName := "t", WriteBatchNum := 1, PreQueries := [], PostQueries := [],
    Schema :=
      { StorageFormat := "orc"
        TableProps := []
        Fields := [("int", [⟨"", 1, 0, none, ""⟩, ⟨"", 1, 0, none, ""⟩])] } }

/-- A field map with a negative count between a counted and a named entry. -/
def negCountConfig : Config :=
  { NumRows := 1, TableName := "t", WriteBatchNum := 1, PreQueries := [], PostQueries := [],
    Schema :=
      { StorageFormat := "orc"
        TableProps := []
        Fields := [("int", [⟨"a", 2, 0, none, ""⟩, ⟨"dropped", -3, 0, none, ""⟩,
                            ⟨"id", 0, 0, none, ""⟩])] } }

/-- Number of columns an entry with the given count expands to: the count when
positive, one when zero, none when negative. -/
def countCols (count : Int) : Nat :=
  if 0 < count then count.toNat else if count = 0 then 1 else 0

/-- Value of a string of decimal digits read from the left, starting from `a`. -/
def decodeDigits (a : Nat) (cs : List Char) : Nat :=
  cs.foldl (fun a c => 10 * a + (c.toNat - 48)) a

/-- An `int` column whose range is the single point 5: `end <= start`. -/
def pointIntCol : FieldSchema := ⟨"c", 0, 0, some ⟨.int 5, .int 5⟩, "int"⟩

/-- An `int` column whose range runs backwards, from 10 to 0. -/
def backwardIntCol : FieldSchema := ⟨"c", 0, 0, some ⟨.int 10, .int 0⟩, "int"⟩

/-- A `uint` column whose range is the single point 7, held as `uint64`. -/
def pointUintCol : FieldSchema := ⟨"c", 0, 0, some ⟨.uint64 7, .uint64 7⟩, "uint"⟩

/-- A `uint` column with `uint64` bounds 0 and `2^63`. -/
def wideUintCol : FieldSchema :=
  ⟨"c", 0, 0, some ⟨.uint64 0, .uint64 9223372036854775808⟩, "uint"⟩

/-- A `string` column with length range `[0, 2^63 - 1]`. -/
def maxLenStringCol : FieldSchema :=
  ⟨"c", 0, 0, some ⟨.int 0, .int 9223372036854775807⟩, "string"⟩

/-- Scenario S2: one row, one counted `boolean` entry, format `orc`. -/
def boolConfig : Config :=
  { NumRows := 1, TableName := "t", WriteBatchNum := 10, PreQueries := [], PostQueries := [],
    Schema :=
      { StorageFormat := "orc"
        TableProps := []
        Fields := [("boolean", [⟨"", 1, 0, none, ""⟩])] } }

/-- The generator `NewGenerator` builds for scenario S2. -/
def boolGen : Generator :=
  { numRows := 1, tableName := "t", batchNum := 10, storageFormat := "orc",
    tableProps := [], fieldDefs := [⟨"col_boolean0", 1, 0, none, "boolean"⟩],
    preQueries := [], postQueries := [] }

/-- The six type tags the value generator knows. -/
def knownTags : List String := ["int", "float", "uint", "string", "timestamp", "boolean"]

/-- The entry with its `Nullable` value replaced by a fixed one. -/
def FieldSchema.eraseNullable (f : FieldSchema) : FieldSchema := { f with Nullable := 0 }

/-- The configuration with the `nullable` value of every field entry replaced by
a fixed one: two configurations differ at most in `nullable` values exactly when
they have the same image. -/
def Config.eraseNullable (c : Config) : Config :=
  { c with
    Schema := { c.Schema with
      Fields := c.Schema.Fields.map (fun p => (p.1, p.2.map FieldSchema.eraseNullable)) } }

/-- The generator with the `Nullable` value of every column replaced by a fixed
one. -/
def Generator.eraseNullable (g : Generator) : Generator :=
  { g with fieldDefs := g.fieldDefs.map FieldSchema.eraseNullable }

/-- Two configurations that differ only in `nullable` values. -/
def nullableConfigA : Config :=
  { NumRows := 3, TableName := "t", WriteBatchNum := 2, PreQueries := ["SET x=1"],
    PostQueries := [],
    Schema :=
      { StorageFormat := "orc"
        TableProps := []
        Fields := [("int", [⟨"", 2, 0, none, ""⟩]), ("string", [⟨"s", 0, 0, none, ""⟩])] } }

/-- The configuration `nullableConfigA` with other `nullable` values. -/
def nullableConfigB : Config :=
  { NumRows := 3, TableName := "t", WriteBatchNum := 2, PreQueries := ["SET x=1"],
    PostQueries := [],
    Schema :=
      { StorageFormat := "orc"
        TableProps := []
        Fields := [("int", [⟨"", 2, 4602678819172646912, none, ""⟩]),
                   ("string", [⟨"s", 0, 4607182418800017408, none, ""⟩])] } }

/-- Batch size zero, one row, and an `int` column whose range start is a
string. -/
def zeroBatchBadRangeGen : Generator :=
  { numRows := 1, tableName := "t", batchNum := 0, storageFormat := "parquet",
    tableProps := [], preQueries := ["SET x=1"], postQueries := ["ANALYZE t"],
    fieldDefs := [⟨"c", 0, 0, some ⟨.str "a", .int 3⟩, "int"⟩] }

/-- Batch size zero, three rows, one well-formed `int` column. -/
def zeroBatchIntGen : Generator :=
  { numRows := 3, tableName := "t", batchNum := 0, storageFormat := "parquet",
    tableProps := [], preQueries := ["SET x=1"], postQueries := ["ANALYZE t"],
    fieldDefs := [⟨"c", 0, 0, some ⟨.int 0, .int 10⟩, "int"⟩] }

/-! ## The writer with the direct predicate -/

/-- State of the writer of the design note when its row loop is left: the state
of `LoopEnd` and the answer to "was a `VALUES` item written since the current
group was opened?". -/
structure LoopEndDirect where
  out : List String
  builder : String
  rng : Rng
  panic : Option Panic
  wroteValues : Bool

/-- The row loop of the design note: the loop of `rowLoop` with the direct
predicate carried along, set when a `VALUES` item is appended to the builder and
cleared when a new group header is written. -/
def rowLoopDirect (h : Host) (g : Generator) :
    Nat → Int → List String → String → Bool → Rng → LoopEndDirect
  | 0, _, out, builder, w, r => ⟨out, builder, r, none, w⟩
  | k + 1, i, out, builder, w, r =>
    match genRow h g.fieldDefs r with
    | .error p => ⟨out, builder, r, some p, w⟩
    | .ok (batchValue, r1) =>
      let builder := builder ++ ("VALUES (" ++ stringsJoin batchValue "," ++ ")")
      if g.batchNum = 0 then ⟨out, builder, r1, some .divideByZero, true⟩
      else if Int.tmod i g.batchNum = 0 then
        let builder := builder ++ ");\n"
        let out := out ++ [builder]
        rowLoopDirect h g k (i + 1) out g.groupHeader false r1
      else
        let builder := if i ≠ g.numRows then builder ++ "," else builder
        rowLoopDirect h g k (i + 1) out builder true r1

/-- State of `Generate` when its row loop is left. -/
def Generator.loopEnd (h : Host) (g : Generator) (r : Rng) : LoopEnd :=
  rowLoop h g g.numRows.toNat 1
    (writeStrs [] g.generatePreQueries ++ [g.generateCreateTable]) g.groupHeader r

/-- State of the writer of the design note when its row loop is left. -/
def Generator.loopEndDirect (h : Host) (g : Generator) (r : Rng) : LoopEndDirect :=
  rowLoopDirect h g g.numRows.toNat 1
    (writeStrs [] g.generatePreQueries ++ [g.generateCreateTable]) g.groupHeader false r

/-- The writer of the design note: `Generate` with the final flush decided by
the direct predicate instead of the length of the builder. -/
def Generator.GenerateDirect (h : Host) (g : Generator) (r : Rng) : Run :=
  let st := g.loopEndDirect h r
  match st.panic with
  | some p => ⟨g.generateFileName, st.out, some p⟩
  | none =>
    let out := if st.wroteValues then st.out ++ [st.builder ++ ");\n"] else st.out
    ⟨g.generateFileName, writeStrs out g.generatePostQueries, none⟩

/-! ## The calendar behind `Format("2006-01-02 15:04:05.000")` -/

/-- Civil date (year, month, day) of the proleptic Gregorian calendar, the
calendar of Go `time`, `z` days after 1970-01-01. The count is shifted to start
on 0000-03-01, split into 400-year eras of 146097 days, and the year of the era,
the day of the year and the month (counted from March) are read off. -/
def civilFromDays (z : Int) : Int × Int × Int :=
  let z := z + 719468
  let era := z / 146097
  let doe := z % 146097
  let yoe := (doe - doe / 1460 + doe / 36524 - doe / 146096) / 365
  let doy := doe - (365 * yoe + yoe / 4 - yoe / 100)
  let mp := (5 * doy + 2) / 153
  let d := doy - (153 * mp + 2) / 5 + 1
  let m := if mp < 10 then mp + 3 else mp - 9
  (yoe + era * 400 + (if m ≤ 2 then 1 else 0), m, d)

/-- The last `w` decimal digits of `u`, most significant first. -/
def fixedDigits : Nat → Nat → List Char
  | 0, _ => []
  | w + 1, u => fixedDigits w (u / 10) ++ [Nat.digitChar (u % 10)]

/-- Go `appendInt(b, x, width)` of package `time`: a minus sign when `x < 0`,
then the decimal digits of `|x|`, zero-padded on the left to `width` digits. -/
def appendInt (x : Int) (width : Nat) : String :=
  String.mk ((if x < 0 then ['-'] else []) ++
    (if x.natAbs < 10 ^ width then fixedDigits width x.natAbs
     else Nat.toDigits 10 x.natAbs))

/-- Go `t.Format("2006-01-02 15:04:05.000")` for a time whose wall clock, at the
zone offset in force, stands `localNs` nanoseconds after 1970-01-01 00:00:00:
four-digit year, two-digit month, day, hour, minute and second, and the
nanosecond of the second cut down to three digits. -/
def renderStamp (localNs : Int) : String :=
  let sec := localNs / 1000000000
  let nsec := localNs % 1000000000
  let date := civilFromDays (sec / 86400)
  let rem := sec % 86400
  appendInt date.1 4 ++ "-" ++ appendInt date.2.1 2 ++ "-" ++ appendInt date.2.2 2 ++ " " ++
    appendInt (rem / 3600) 2 ++ ":" ++ appendInt (rem % 3600 / 60) 2 ++ ":" ++
    appendInt (rem % 60) 2 ++ "." ++ appendInt (nsec / 1000000) 3

/-- An instant cut down to the millisecond. -/
def truncMs (ns : Int) : Int := ns - ns % 1000000

/-- Match of a token against a template in which `d` stands for any decimal
digit and every other character for itself. -/
def formOK : List Char → List Char → Bool
  | [], [] => true
  | t :: ts, c :: cs => (if t = 'd' then c.isDigit else decide (t = c)) && formOK ts cs
  | _, _ => false

/-- The token has the form `YYYY-MM-DD HH:MM:SS.mmm`. -/
def stampForm (s : String) : Bool := formOK "dddd-dd-dd dd:dd:dd.ddd".data s.data

/-- A host whose calendar is the one above: `off t` is the offset east of UTC,
in seconds, that the location of `t` observes at the instant `t`; `Format`
renders the wall clock at that offset, offsets are below one day, and the two
default bounds are the instants whose wall clocks read 2023-01-01 00:00:00 and
2023-12-31 23:59:59. -/
structure CivilHost (h : Host) (off : GoTime → Int) : Prop where
  format : ∀ t, h.formatTime t = renderStamp (t.ns + 1000000000 * off t)
  offset : ∀ t, -86400 < off t ∧ off t < 86400
  localMin : h.localMin.ns + 1000000000 * off h.localMin = 1672531200000000000
  localMax : h.localMax.ns + 1000000000 * off h.localMax = 1704067199000000000

/-- A host whose every location is UTC. -/
def utcHost : Host :=
  ⟨fun _ _ _ => "0.000000", fun t => renderStamp t.ns,
   ⟨1672531200000000000, "Local"⟩, ⟨1704067199000000000, "Local"⟩, 1000000⟩

/-- The token of a value generation, when there is one. -/
def tokenOf : Except Panic (String × Rng) → Option String
  | .ok (tok, _) => some tok
  | .error _ => none

/-- A `timestamp` column from 1970-01-01T00:00:00.0005Z to
1970-01-01T00:00:00.0015Z. -/
def subMsCol : FieldSchema :=
  ⟨"c", 0, 0, some ⟨.time ⟨500000, "UTC"⟩, .time ⟨1500000, "UTC"⟩⟩, "timestamp"⟩

/-- A `timestamp` column from 9999-12-31T23:59:59Z to 9999-12-31T23:59:59-12:00. -/
def lateCol : FieldSchema :=
  ⟨"c", 0, 0, some ⟨.time ⟨253402300799000000000, "UTC"⟩,
    .time ⟨253402343999000000000, "-12:00"⟩⟩, "timestamp"⟩

/-- A `timestamp` column from 2024-02-29T12:00:00Z to 2024-03-01T00:00:00Z. -/
def leapCol : FieldSchema :=
  ⟨"c", 0, 0, some ⟨.time ⟨1709208000000000000, "UTC"⟩,
    .time ⟨1709251200000000000, "UTC"⟩⟩, "timestamp"⟩

/-- The source whose every draw is `0`. -/
def zeroRng : Rng := ⟨fun _ => 0, 0⟩

/-- The source whose every draw is `1000000000`. -/
def secondRng : Rng := ⟨fun _ => 1000000000, 0⟩

/-! ## Values of the `any` fields -/

/-- The values `yaml.Unmarshal`, which `main` calls to read the configuration,
leaves in an `any` field: an integer scalar becomes an `int` when it fits the
64-bit `int`, and a `uint64` only when it lies above the largest `int64`. -/
def yamlDecoded : GoAny → Bool
  | .int v => decide (-(2 ^ 63) ≤ v ∧ v < 2 ^ 63)
  | .uint64 v => decide (2 ^ 63 ≤ v ∧ v < 2 ^ 64)
  | _ => true

/-- A `uint` column with the `uint64` range `[2^63, 2^63 + 10)`. -/
def highUintCol : FieldSchema :=
  ⟨"c", 0, 0, some ⟨.uint64 9223372036854775808, .uint64 9223372036854775818⟩, "uint"⟩

/-! ## Strings -/

theorem utf8ByteSize_append (a b : String) :
    (a ++ b).utf8ByteSize = a.utf8ByteSize + b.utf8ByteSize := by
  show String.utf8Len (a ++ b).data = String.utf8Len a.data + String.utf8Len b.data
  rw [String.data_append, String.utf8Len_append]

theorem stringsJoin_cons_cons (a b : String) (l : List String) (sep : String) :
    stringsJoin (a :: b :: l) sep = a ++ sep ++ stringsJoin (b :: l) sep := rfl

theorem stringsJoin_snoc (cur : List String) (x : String) :
    stringsJoin (cur ++ [x]) "," = trail cur ++ x := by
  induction cur with
  | nil => simp [stringsJoin, trail]
  | cons a rest ih =>
    cases rest with
    | nil => simp [stringsJoin, trail, String.append_assoc]
    | cons b l =>
      have : (a :: b :: l) ++ [x] = a :: b :: (l ++ [x]) := rfl
      rw [this, stringsJoin_cons_cons]
      have ih2 : stringsJoin (b :: (l ++ [x])) "," = trail (b :: l) ++ x := ih
      rw [ih2]
      simp [trail, String.append_assoc]

theorem trail_snoc (cur : List String) (x : String) :
    trail (cur ++ [x]) = trail cur ++ x ++ "," := by
  induction cur with
  | nil => simp [trail]
  | cons a rest ih => simp [trail, ih, String.append_assoc]

theorem groupHeader_size (g : Generator) :
    g.groupHeader.utf8ByteSize = 30 + g.tableName.utf8ByteSize := by
  unfold Generator.groupHeader
  rw [utf8ByteSize_append, utf8ByteSize_append]
  have h1 : ("BATCHINSERT INTO " : String).utf8ByteSize = 17 := by decide
  have h2 : (" BATCHVALUES(" : String).utf8ByteSize = 13 := by decide
  omega

theorem valuesItem_size_pos (tokens : List String) : 0 < (valuesItem tokens).utf8ByteSize := by
  unfold valuesItem
  rw [utf8ByteSize_append, utf8ByteSize_append]
  have h1 : ("VALUES (" : String).utf8ByteSize = 8 := by decide
  omega

/-! ## The row loop and the writes of a run -/

theorem rowLoop_zero (h : Host) (g : Generator) (i : Int) (out : List String)
    (builder : String) (r : Rng) :
    rowLoop h g 0 i out builder r = ⟨out, builder, r, none⟩ := rfl

/-- Loop invariant of the row loop, for a non-zero batch size. -/
theorem rowLoop_succ (h : Host) (g : Generator) (hB : g.batchNum ≠ 0) :
    ∀ (k : Nat) (i : Int) (out cur : List String) (r : Rng),
      g.numRows = i + k →
      (rowLoop h g (k + 1) i out (g.groupHeader ++ trail cur) r).out =
          out ++ (scanBy g.batchNum i cur
            ((genRows h g.fieldDefs (k + 1) r).1.map valuesItem)).1.map g.renderGroup ∧
      (rowLoop h g (k + 1) i out (g.groupHeader ++ trail cur) r).panic =
          (genRows h g.fieldDefs (k + 1) r).2 ∧
      ((genRows h g.fieldDefs (k + 1) r).2 = none →
        (rowLoop h g (k + 1) i out (g.groupHeader ++ trail cur) r).builder =
          g.groupHeader ++ stringsJoin (scanBy g.batchNum i cur
            ((genRows h g.fieldDefs (k + 1) r).1.map valuesItem)).2 ",") := by
  intro k
  induction k with
  | zero =>
    intro i out cur r hN
    have hi : i = g.numRows := by simpa using hN.symm
    subst hi
    cases hrow : genRow h g.fieldDefs r with
    | error p => simp [rowLoop, genRows, hrow, scanBy]
    | ok v =>
      obtain ⟨row, r1⟩ := v
      by_cases hc : Int.tmod g.numRows g.batchNum = 0
      · simp [rowLoop, genRows, hrow, scanBy, hB, hc, Generator.renderGroup,
          stringsJoin_snoc, String.append_assoc, valuesItem, stringsJoin]
      · simp [rowLoop, genRows, hrow, scanBy, hB, hc,
          stringsJoin_snoc, String.append_assoc, valuesItem]
  | succ k ih =>
    intro i out cur r hN
    have hi : i ≠ g.numRows := by
      intro h'; rw [h'] at hN; push_cast at hN; omega
    have hN1 : g.numRows = (i + 1) + k := by push_cast at hN; omega
    cases hrow : genRow h g.fieldDefs r with
    | error p => simp [rowLoop, genRows, hrow, scanBy]
    | ok v =>
      obtain ⟨row, r1⟩ := v
      by_cases hc : Int.tmod i g.batchNum = 0
      · have ih1 := ih (i + 1) (out ++ [g.renderGroup (cur ++ [valuesItem row])]) [] r1 hN1
        simp only [trail, String.append_empty] at ih1
        obtain ⟨e1, e2, e3⟩ := ih1
        have hb : g.groupHeader ++ trail cur ++ ("VALUES (" ++ stringsJoin row "," ++ ")") ++ ");\n"
            = g.renderGroup (cur ++ [valuesItem row]) := by
          simp [Generator.renderGroup, stringsJoin_snoc, String.append_assoc, valuesItem]
        rw [rowLoop]
        simp only [hrow, hB, hc, if_true, if_false, hb]
        rw [genRows]
        simp only [hrow, List.map_cons]
        rw [scanBy]
        simp only [hc, if_true]
        refine ⟨?_, ?_, ?_⟩
        · rw [e1]; simp
        · exact e2
        · exact e3
      · have ih1 := ih (i + 1) out (cur ++ [valuesItem row]) r1 hN1
        obtain ⟨e1, e2, e3⟩ := ih1
        have hb : g.groupHeader ++ trail cur ++ ("VALUES (" ++ stringsJoin row "," ++ ")") ++ ","
            = g.groupHeader ++ trail (cur ++ [valuesItem row]) := by
          simp [trail_snoc, String.append_assoc, valuesItem]
        rw [rowLoop]
        simp only [hrow, hB, hc, hi, if_true, if_false, hb, ne_eq, not_false_eq_true]
        rw [genRows]
        simp only [hrow, List.map_cons]
        rw [scanBy]
        simp only [hc, if_false]
        exact ⟨e1, e2, e3⟩

theorem writeStrs_eq (out queries : List String) :
    writeStrs out queries = out ++ queries.map (fun q => q ++ ";\n") := by
  unfold writeStrs
  induction queries generalizing out with
  | nil => simp
  | cons q qs ih => simp [List.foldl_cons, ih]

theorem scanBy_rem_mem (B : Int) (xs : List String) :
    ∀ (i : Int) (cur : List String), ∀ x ∈ (scanBy B i cur xs).2, x ∈ cur ++ xs := by
  induction xs with
  | nil => intro i cur x hx; simpa [scanBy] using hx
  | cons a rest ih =>
    intro i cur x hx
    rw [scanBy] at hx
    by_cases hc : Int.tmod i B = 0
    · simp only [hc, if_true] at hx
      have := ih (i + 1) [] x hx
      simp at this
      simp [this]
    · simp only [hc, if_false] at hx
      have := ih (i + 1) (cur ++ [a]) x hx
      simpa using this

theorem stringsJoin_size_pos (l : List String) (sep : String) (hne : l ≠ [])
    (hpos : ∀ x ∈ l, 0 < x.utf8ByteSize) : 0 < (stringsJoin l sep).utf8ByteSize := by
  cases l with
  | nil => exact absurd rfl hne
  | cons a rest =>
    have ha : 0 < a.utf8ByteSize := hpos a (by simp)
    cases rest with
    | nil => simpa [stringsJoin] using ha
    | cons b l =>
      rw [stringsJoin_cons_cons, utf8ByteSize_append, utf8ByteSize_append]
      omega

/-- The writes of a run with a non-zero batch size: the prelude lines, the
`CREATE TABLE` line, one write per group ended at a boundary and, when no panic
occurred, the last partial group if it has items and the postlude lines. -/
theorem Generate_eq (h : Host) (g : Generator) (r : Rng) (hB : g.batchNum ≠ 0) :
    (g.Generate h r).panic = (genRows h g.fieldDefs g.numRows.toNat r).2 ∧
    (g.Generate h r).writes =
      g.preQueries.map (fun q => q ++ ";\n") ++ [g.generateCreateTable] ++
        (scanBy g.batchNum 1 []
          ((genRows h g.fieldDefs g.numRows.toNat r).1.map valuesItem)).1.map g.renderGroup ++
        (if (genRows h g.fieldDefs g.numRows.toNat r).2 = none then
          (if (scanBy g.batchNum 1 []
              ((genRows h g.fieldDefs g.numRows.toNat r).1.map valuesItem)).2 = [] then []
           else [g.renderGroup (scanBy g.batchNum 1 []
              ((genRows h g.fieldDefs g.numRows.toNat r).1.map valuesItem)).2]) ++
            g.postQueries.map (fun q => q ++ ";\n")
         else []) := by
  have hsz := groupHeader_size g
  cases hk : g.numRows.toNat with
  | zero =>
    simp [Generator.Generate, rowLoop_zero, genRows, scanBy, writeStrs_eq, hk, hsz,
      Generator.generatePreQueries, Generator.generatePostQueries]
  | succ k =>
    have hN : g.numRows = 1 + k := by omega
    obtain ⟨e1, e2, e3⟩ := rowLoop_succ h g hB k 1
      (writeStrs [] g.generatePreQueries ++ [g.generateCreateTable]) [] r hN
    simp only [trail, String.append_empty, writeStrs_eq, Generator.generatePreQueries,
      List.nil_append] at e1 e2 e3
    unfold Generator.Generate
    simp only [hk, writeStrs_eq, Generator.generatePreQueries, Generator.generatePostQueries,
      List.nil_append]
    cases hp : (genRows h g.fieldDefs (k + 1) r).2 with
    | some p =>
      rw [hp] at e2
      simp [e2, e1]
    | none =>
      rw [hp] at e2
      have e3 := e3 hp
      simp only [e2, e1, e3]
      by_cases hrem : (scanBy g.batchNum 1 []
          ((genRows h g.fieldDefs (k + 1) r).1.map valuesItem)).2 = []
      · simp [hrem, stringsJoin, hsz]
      · have hpos : 0 < (stringsJoin (scanBy g.batchNum 1 []
            ((genRows h g.fieldDefs (k + 1) r).1.map valuesItem)).2 ",").utf8ByteSize := by
          apply stringsJoin_size_pos _ _ hrem
          intro x hx
          have hm := scanBy_rem_mem _ _ _ _ x hx
          simp only [List.nil_append, List.mem_map] at hm
          obtain ⟨row, _, rfl⟩ := hm
          exact valuesItem_size_pos row
        have hne : (g.groupHeader ++ stringsJoin (scanBy g.batchNum 1 []
            ((genRows h g.fieldDefs (k + 1) r).1.map valuesItem)).2 ",").utf8ByteSize
            ≠ 30 + g.tableName.utf8ByteSize := by
          rw [utf8ByteSize_append]; omega
        have hgt : (g.groupHeader ++ stringsJoin (scanBy g.batchNum 1 []
            ((genRows h g.fieldDefs (k + 1) r).1.map valuesItem)).2 ",").utf8ByteSize > 0 := by
          rw [utf8ByteSize_append]; omega
        simp [hrem, hne, hgt, Generator.renderGroup]

/-! ## Splitting the items into groups -/

theorem succ_mod_of_zero (j B : Nat) (hB : 1 ≤ B) (h0 : (j + 1) % B = 0) : j % B + 1 = B := by
  have h1 := Nat.div_add_mod j B
  have hlt := Nat.mod_lt j (show B > 0 by omega)
  by_contra hne
  have hlt2 : j % B + 1 < B := by omega
  have : (j + 1) % B = j % B + 1 := by
    have e : j + 1 = B * (j / B) + (j % B + 1) := by omega
    rw [e, Nat.mul_add_mod, Nat.mod_eq_of_lt hlt2]
  omega

theorem succ_mod_of_ne_zero (j B : Nat) (hB : 1 ≤ B) (h0 : (j + 1) % B ≠ 0) :
    (j + 1) % B = j % B + 1 := by
  have h1 := Nat.div_add_mod j B
  have hlt := Nat.mod_lt j (show B > 0 by omega)
  by_cases hlt2 : j % B + 1 < B
  · have e : j + 1 = B * (j / B) + (j % B + 1) := by omega
    rw [e, Nat.mul_add_mod, Nat.mod_eq_of_lt hlt2]
  · exfalso
    apply h0
    have e : j + 1 = B * (j / B + 1) := by rw [Nat.mul_add, Nat.mul_one]; omega
    rw [e, Nat.mul_mod_right]

theorem boundary_iff (j B : Nat) : Int.tmod ((j : Int) + 1) (B : Int) = 0 ↔ (j + 1) % B = 0 := by
  have h := Int.ofNat_tmod (j + 1) B
  push_cast at h
  rw [← h]
  exact_mod_cast Iff.rfl

theorem scanBy_flatten (B : Int) (xs : List String) :
    ∀ (i : Int) (cur : List String),
      (scanBy B i cur xs).1.flatten ++ (scanBy B i cur xs).2 = cur ++ xs := by
  induction xs with
  | nil => intro i cur; simp [scanBy]
  | cons a rest ih =>
    intro i cur
    rw [scanBy]
    by_cases hc : Int.tmod i B = 0
    · simp only [hc, if_true, List.flatten_cons, List.append_assoc]
      rw [ih (i + 1) []]; simp
    · simp only [hc, if_false]
      rw [ih (i + 1) (cur ++ [a])]; simp

theorem scanBy_ne_nil (B : Int) (xs : List String) :
    ∀ (i : Int) (cur : List String), ∀ c ∈ (scanBy B i cur xs).1, c ≠ [] := by
  induction xs with
  | nil => intro i cur c hc; simp [scanBy] at hc
  | cons a rest ih =>
    intro i cur c hc
    rw [scanBy] at hc
    by_cases hb : Int.tmod i B = 0
    · simp only [hb, if_true, List.mem_cons] at hc
      rcases hc with rfl | hc
      · simp
      · exact ih _ _ c hc
    · simp only [hb, if_false] at hc
      exact ih _ _ c hc

theorem scanBy_mem (B : Int) (xs : List String) :
    ∀ (i : Int) (cur : List String), ∀ c ∈ (scanBy B i cur xs).1, ∀ x ∈ c, x ∈ cur ++ xs := by
  intro i cur c hc x hx
  rw [← scanBy_flatten B xs i cur]
  exact List.mem_append_left _ (List.mem_flatten.mpr ⟨c, hc, hx⟩)

theorem scanBy_sizes (B : Nat) (hB : 1 ≤ B) (xs : List String) :
    ∀ (j : Nat) (cur : List String), cur.length = j % B →
      (∀ c ∈ (scanBy (B : Int) ((j : Int) + 1) cur xs).1, c.length = B) ∧
      (scanBy (B : Int) ((j : Int) + 1) cur xs).2.length = (j + xs.length) % B := by
  induction xs with
  | nil => intro j cur hcur; simp [scanBy, hcur]
  | cons a rest ih =>
    intro j cur hcur
    rw [scanBy]
    by_cases hc : Int.tmod ((j : Int) + 1) (B : Int) = 0
    · have h0 : (j + 1) % B = 0 := (boundary_iff j B).mp hc
      have hfull := succ_mod_of_zero j B hB h0
      have ih1 := ih (j + 1) [] (by simp [h0])
      push_cast at ih1
      simp only [hc, if_true, List.mem_cons]
      refine ⟨?_, ?_⟩
      · intro c hcm
        rcases hcm with rfl | hcm
        · simp; omega
        · exact ih1.1 c hcm
      · rw [ih1.2]; simp [Nat.add_assoc, Nat.add_comm 1]
    · have h0 : (j + 1) % B ≠ 0 := fun h => hc ((boundary_iff j B).mpr h)
      have hnext := succ_mod_of_ne_zero j B hB h0
      have ih1 := ih (j + 1) (cur ++ [a]) (by simp [hcur, hnext])
      push_cast at ih1
      simp only [hc, if_false]
      refine ⟨ih1.1, ?_⟩
      rw [ih1.2]; simp [Nat.add_assoc, Nat.add_comm 1]

theorem flatten_length_const (L : List (List String)) (B : Nat) (hL : ∀ c ∈ L, c.length = B) :
    L.flatten.length = L.length * B := by
  induction L with
  | nil => simp
  | cons c rest ih =>
    have h1 := hL c (by simp)
    have h2 := ih (fun c hc => hL c (by simp [hc]))
    simp [h1, h2, Nat.succ_mul, Nat.add_comm]

theorem scanBy_counts (B : Nat) (hB : 1 ≤ B) (xs : List String) :
    (scanBy (B : Int) 1 [] xs).1.length = xs.length / B ∧
    (scanBy (B : Int) 1 [] xs).2.length = xs.length % B := by
  have hs := scanBy_sizes B hB xs 0 [] (by simp)
  simp only [Nat.cast_zero, zero_add] at hs
  have hf := congrArg List.length (scanBy_flatten (B : Int) xs 1 [])
  rw [List.length_append, flatten_length_const _ B hs.1, hs.2] at hf
  simp only [List.nil_append] at hf
  refine ⟨?_, hs.2⟩
  have hdm := Nat.div_add_mod xs.length B
  have hpos : 0 < B := hB
  have : (scanBy (B : Int) 1 [] xs).1.length * B = B * (xs.length / B) := by omega
  rw [Nat.mul_comm] at this
  exact Nat.eq_of_mul_eq_mul_left hpos this


theorem ceil_div_cases (n B : Nat) (hB : 1 ≤ B) :
    (n + B - 1) / B = n / B + (if n % B = 0 then 0 else 1) := by
  have hdm := Nat.div_add_mod n B
  have hlt := Nat.mod_lt n (show B > 0 by omega)
  have hpos : 0 < B := hB
  by_cases hm : n % B = 0
  · simp only [hm, if_true, Nat.add_zero]
    have e : n + B - 1 = B * (n / B) + (B - 1) := by omega
    have e2 : (B - 1) / B = 0 := Nat.div_eq_of_lt (by omega)
    rw [e, Nat.mul_add_div hpos, e2, Nat.add_zero]
  · simp only [hm, if_false]
    have e : n + B - 1 = B * (n / B + 1) + (n % B - 1) := by
      rw [Nat.mul_add, Nat.mul_one]; omega
    have e2 : (n % B - 1) / B = 0 := Nat.div_eq_of_lt (by omega)
    rw [e, Nat.mul_add_div hpos, e2, Nat.add_zero]

theorem allGroups_length (B : Nat) (hB : 1 ≤ B) (xs : List String) :
    (allGroups (B : Int) xs).length = (xs.length + B - 1) / B := by
  obtain ⟨h1, h2⟩ := scanBy_counts B hB xs
  rw [ceil_div_cases _ _ hB]
  unfold allGroups
  by_cases hm : xs.length % B = 0
  · have : (scanBy (B : Int) 1 [] xs).2 = [] := List.length_eq_zero.mp (by omega)
    simp [this, hm, h1]
  · have : (scanBy (B : Int) 1 [] xs).2 ≠ [] := by
      intro h; rw [h] at h2; simp at h2; omega
    simp [this, hm, h1]

theorem allGroups_flatten (B : Int) (xs : List String) : (allGroups B xs).flatten = xs := by
  have h := scanBy_flatten B xs 1 []
  unfold allGroups
  by_cases hr : (scanBy B 1 [] xs).2 = []
  · rw [hr] at h; simpa [hr] using h
  · simpa [hr] using h

theorem allGroups_ne_nil (B : Int) (xs : List String) : ∀ c ∈ allGroups B xs, c ≠ [] := by
  intro c hc
  unfold allGroups at hc
  rcases List.mem_append.mp hc with h | h
  · exact scanBy_ne_nil B xs 1 [] c h
  · by_cases hr : (scanBy B 1 [] xs).2 = []
    · simp [hr] at h
    · simp only [hr, if_false, List.mem_singleton] at h
      rw [h]; exact hr

theorem allGroups_shape (B : Nat) (hB : 1 ≤ B) (xs : List String) (hne : xs ≠ []) :
    ∃ init last, allGroups (B : Int) xs = init ++ [last] ∧
      (∀ c ∈ init, c.length = B) ∧ last.length = (xs.length - 1) % B + 1 := by
  obtain ⟨h1, h2⟩ := scanBy_counts B hB xs
  have hs := (scanBy_sizes B hB xs 0 [] (by simp)).1
  simp only [Nat.cast_zero, zero_add] at hs
  have hlen : 0 < xs.length := List.length_pos.mpr hne
  have hdm := Nat.div_add_mod xs.length B
  have hlt := Nat.mod_lt xs.length (show B > 0 by omega)
  by_cases hm : xs.length % B = 0
  · have hr : (scanBy (B : Int) 1 [] xs).2 = [] := List.length_eq_zero.mp (by omega)
    have hq : 0 < xs.length / B := by
      rcases Nat.eq_zero_or_pos (xs.length / B) with h0 | h0
      · rw [h0] at hdm; omega
      · exact h0
    have hne1 : (scanBy (B : Int) 1 [] xs).1 ≠ [] := by
      intro h; rw [h] at h1; simp at h1; omega
    refine ⟨(scanBy (B : Int) 1 [] xs).1.dropLast, (scanBy (B : Int) 1 [] xs).1.getLast hne1,
      ?_, ?_, ?_⟩
    · unfold allGroups
      simp [hr, List.dropLast_append_getLast]
    · intro c hc
      exact hs c (List.mem_of_mem_dropLast hc)
    · rw [hs _ (List.getLast_mem hne1)]
      have e : xs.length - 1 = B * (xs.length / B - 1) + (B - 1) := by
        have : B * (xs.length / B) = B * (xs.length / B - 1) + B := by
          rw [← Nat.mul_succ]; congr 1; omega
        omega
      have e2 : (B - 1) % B = B - 1 := Nat.mod_eq_of_lt (by omega)
      rw [e, Nat.mul_add_mod, e2]
      omega
  · have hr : (scanBy (B : Int) 1 [] xs).2 ≠ [] := by
      intro h; rw [h] at h2; simp at h2; omega
    refine ⟨(scanBy (B : Int) 1 [] xs).1, (scanBy (B : Int) 1 [] xs).2, ?_, hs, ?_⟩
    · unfold allGroups; simp [hr]
    · rw [h2]
      have e : xs.length - 1 = B * (xs.length / B) + (xs.length % B - 1) := by omega
      have e2 : (xs.length % B - 1) % B = xs.length % B - 1 := Nat.mod_eq_of_lt (by omega)
      rw [e, Nat.mul_add_mod, e2]
      omega

/-! ## The value generator -/

theorem wrapInt64_eq (x : Int) (h1 : -(2 ^ 63) ≤ x) (h2 : x < 2 ^ 63) : wrapInt64 x = x := by
  unfold wrapInt64
  omega

theorem wrapUint64_eq (x : Int) (h1 : 0 ≤ x) (h2 : x < 2 ^ 64) : wrapUint64 x = x := by
  unfold wrapUint64
  omega

theorem charset_size : charset.utf8ByteSize = 62 := by decide

theorem fillString_ok : ∀ (k : Nat) (r : Rng), ∃ v, fillString k r = .ok v := by
  intro k
  induction k with
  | zero => intro r; exact ⟨_, rfl⟩
  | succ k ih =>
    intro r
    obtain ⟨⟨cs, r2⟩, h2⟩ := ih r.advance
    refine ⟨(charset.data.getD ((r.peek : Int) % 62).toNat 'a' :: cs, r2), ?_⟩
    simp [fillString, randIntn, charset_size, h2]

theorem genValue_ok (h : Host) (f : FieldSchema) (r : Rng) (hok : colOK h f = true) :
    ∃ v, genValue h f r = .ok v := by
  unfold colOK at hok
  unfold genValue
  by_cases h1 : f.Typ = "int"
  · simp only [h1, if_true] at hok ⊢
    cases hr : f.Range with
    | none =>
      simp [randInt63n, wrapInt64]
    | some rg =>
      rw [hr] at hok
      obtain ⟨s, e⟩ := rg
      cases s <;> cases e <;> simp at hok
      rename_i s e
      obtain ⟨b1, b2, b3, b4⟩ := hok
      have e1 : wrapInt64 s = s := wrapInt64_eq s b1 (by omega)
      have e2 : wrapInt64 e = e := wrapInt64_eq e (by omega) b3
      have e3 : wrapInt64 (e - s) = e - s := wrapInt64_eq _ (by omega) b4
      have e4 : ¬ (e - s ≤ 0) := by omega
      simp [assertInt, randInt63n, e1, e2, e3, e4]
  · simp only [h1, if_false] at hok ⊢
    by_cases h2 : f.Typ = "float"
    · simp only [h2, if_true] at hok ⊢
      cases hr : f.Range with
      | none => simp
      | some rg =>
        rw [hr] at hok
        obtain ⟨s, e⟩ := rg
        cases s <;> cases e <;> simp at hok
        simp [assertFloat64]
    · simp only [h2, if_false] at hok ⊢
      by_cases h3 : f.Typ = "uint"
      · simp only [h3, if_true] at hok ⊢
        cases hr : f.Range with
        | none => simp [randInt63n, wrapInt64, wrapUint64]
        | some rg =>
          rw [hr] at hok
          obtain ⟨s, e⟩ := rg
          cases s <;> cases e <;> simp at hok
          rename_i s e
          obtain ⟨b1, b2, b3⟩ := hok
          have e1 : wrapUint64 ((e : Int) - s) = (e : Int) - s := wrapUint64_eq _ (by omega) (by omega)
          have e3 : wrapInt64 ((e : Int) - s) = (e : Int) - s := wrapInt64_eq _ (by omega) (by omega)
          have e4 : ¬ ((e : Int) - s ≤ 0) := by omega
          simp [assertUint64, randInt63n, e1, e3, e4]
      · simp only [h3, if_false] at hok ⊢
        by_cases h4 : f.Typ = "string"
        · simp only [h4, if_true] at hok ⊢
          cases hr : f.Range with
          | none =>
            rw [hr] at hok
            simp only [decide_eq_true_eq] at hok
            have hA : maxAlloc = 281474976710656 := rfl
            have hw : wrapInt64 (wrapInt64 5 + 1) = 6 := by decide
            have e5 : wrapInt64 ((r.peek : Int) % 6) = (r.peek : Int) % 6 :=
              wrapInt64_eq _ (by omega) (by omega)
            have hlen : ¬ ((r.peek : Int) % 6 < 0 ∨ maxAlloc < (r.peek : Int) % 6) := by omega
            have hmem : ¬ ((h.memLimit : Int) < (r.peek : Int) % 6) := by omega
            obtain ⟨⟨cs, r2⟩, hv⟩ := fillString_ok ((r.peek : Int) % 6).toNat r.advance
            simp [randIntn, hw, e5, hlen, hmem, hv]
          | some rg =>
            rw [hr] at hok
            obtain ⟨s, e⟩ := rg
            cases s <;> cases e <;> simp at hok
            rename_i s e
            obtain ⟨b1, b2, b3, b5⟩ := hok
            have hA : maxAlloc = 281474976710656 := rfl
            have e1 : wrapInt64 (e - s) = e - s := wrapInt64_eq _ (by omega) (by omega)
            have e2 : wrapInt64 (e - s + 1) = e - s + 1 := wrapInt64_eq _ (by omega) (by omega)
            have e4 : ¬ (e - s + 1 ≤ 0) := by omega
            have hm0 := Int.emod_nonneg (r.peek : Int) (show e - s + 1 ≠ 0 by omega)
            have hm1 := Int.emod_lt_of_pos (r.peek : Int) (show 0 < e - s + 1 by omega)
            have e5 : wrapInt64 ((r.peek : Int) % (e - s + 1) + s) = (r.peek : Int) % (e - s + 1) + s :=
              wrapInt64_eq _ (by omega) (by omega)
            have hlen : ¬ ((r.peek : Int) % (e - s + 1) + s < 0 ∨
                maxAlloc < (r.peek : Int) % (e - s + 1) + s) := by omega
            have hmem : ¬ ((h.memLimit : Int) < (r.peek : Int) % (e - s + 1) + s) := by omega
            obtain ⟨⟨cs, r2⟩, hv⟩ := fillString_ok ((r.peek : Int) % (e - s + 1) + s).toNat r.advance
            simp only [assertInt, randIntn, e1, e2, e4, e5, if_false]
            simp [hlen, hmem, hv]
        · simp only [h4, if_false] at hok ⊢
          by_cases h5 : f.Typ = "timestamp"
          · simp only [h5, if_true] at hok ⊢
            cases hr : f.Range with
            | none =>
              rw [hr] at hok
              simp at hok
              simp [randInt63n, not_le.mpr hok]
            | some rg =>
              rw [hr] at hok
              obtain ⟨s, e⟩ := rg
              cases s <;> cases e <;> simp at hok
              simp [assertTime, randInt63n, not_le.mpr hok]
          · simp only [h5, if_false] at hok ⊢
            by_cases h6 : f.Typ = "boolean"
            · simp [h6, randInt]
            · simp [h6]


theorem genRow_ok (h : Host) (cols : List FieldSchema) (hok : ColsOK h cols) :
    ∀ r : Rng, ∃ v, genRow h cols r = .ok v := by
  induction cols with
  | nil => intro r; exact ⟨_, rfl⟩
  | cons f rest ih =>
    intro r
    unfold ColsOK at hok
    simp only [List.all_cons, Bool.and_eq_true] at hok
    obtain ⟨⟨val, r1⟩, hv⟩ := genValue_ok h f r hok.1
    obtain ⟨⟨vals, r2⟩, hvs⟩ := ih hok.2 r1
    exact ⟨(val :: vals, r2), by simp [genRow, hv, hvs]⟩

theorem genRows_ok (h : Host) (cols : List FieldSchema) (hok : ColsOK h cols) :
    ∀ (k : Nat) (r : Rng), (genRows h cols k r).2 = none := by
  intro k
  induction k with
  | zero => intro r; rfl
  | succ k ih =>
    intro r
    obtain ⟨⟨row, r1⟩, hv⟩ := genRow_ok h cols hok r
    simp [genRows, hv, ih r1]

theorem genRows_length (h : Host) (cols : List FieldSchema) :
    ∀ (k : Nat) (r : Rng), (genRows h cols k r).2 = none → (genRows h cols k r).1.length = k := by
  intro k
  induction k with
  | zero => intro r _; rfl
  | succ k ih =>
    intro r hp
    cases hv : genRow h cols r with
    | error p => simp [genRows, hv] at hp
    | ok v =>
      obtain ⟨row, r1⟩ := v
      simp only [genRows, hv] at hp ⊢
      simp [ih r1 hp]

/-- Every token of a generated row comes from the value generator applied to
the column at the same position. -/
theorem genRow_forall2 (h : Host) (cols : List FieldSchema) :
    ∀ (r : Rng) (row : List String) (r1 : Rng), genRow h cols r = .ok (row, r1) →
      List.Forall₂ (fun f tok => ∃ r0 r2, genValue h f r0 = .ok (tok, r2)) cols row := by
  induction cols with
  | nil =>
    intro r row r1 hrow
    simp [genRow] at hrow
    rw [hrow.1]; exact List.Forall₂.nil
  | cons f rest ih =>
    intro r row r1 hrow
    cases hv : genValue h f r with
    | error p => simp [genRow, hv] at hrow
    | ok v =>
      obtain ⟨val, ra⟩ := v
      cases hvs : genRow h rest ra with
      | error p => simp [genRow, hv, hvs] at hrow
      | ok w =>
        obtain ⟨vals, rb⟩ := w
        simp [genRow, hv, hvs] at hrow
        rw [← hrow.1]
        exact List.Forall₂.cons ⟨r, ra, hv⟩ (ih ra vals rb hvs)

theorem genRows_mem (h : Host) (cols : List FieldSchema) :
    ∀ (k : Nat) (r : Rng), ∀ row ∈ (genRows h cols k r).1,
      ∃ r0 r1, genRow h cols r0 = .ok (row, r1) := by
  intro k
  induction k with
  | zero => intro r row hrow; simp [genRows] at hrow
  | succ k ih =>
    intro r row hrow
    cases hv : genRow h cols r with
    | error p => simp [genRows, hv] at hrow
    | ok v =>
      obtain ⟨row0, r1⟩ := v
      simp only [genRows, hv, List.mem_cons] at hrow
      rcases hrow with rfl | hrow
      · exact ⟨r, r1, hv⟩
      · exact ih r1 row hrow

/-- With batch size zero the first row ends the run: nothing is written after
the `CREATE TABLE` line. -/
theorem Generate_batchZero (h : Host) (g : Generator) (r : Rng) (hB : g.batchNum = 0)
    (hN : 1 ≤ g.numRows) :
    (g.Generate h r).writes =
      g.preQueries.map (fun q => q ++ ";\n") ++ [g.generateCreateTable] ∧
    (g.Generate h r).panic =
      (match genRow h g.fieldDefs r with
       | .error p => some p
       | .ok _ => some .divideByZero) := by
  obtain ⟨k, hk⟩ : ∃ k, g.numRows.toNat = k + 1 := ⟨g.numRows.toNat - 1, by omega⟩
  unfold Generator.Generate
  simp only [hk]
  cases hv : genRow h g.fieldDefs r with
  | error p => simp [rowLoop, hv, writeStrs_eq, Generator.generatePreQueries]
  | ok v =>
    obtain ⟨row, r1⟩ := v
    simp [rowLoop, hv, hB, writeStrs_eq, Generator.generatePreQueries]


/-- Without rows the run writes the prelude, the `CREATE TABLE` line and the
postlude, whatever the batch size. -/
theorem Generate_noRows (h : Host) (g : Generator) (r : Rng) (hN : g.numRows ≤ 0) :
    (g.Generate h r).panic = none ∧
    (g.Generate h r).writes =
      g.preQueries.map (fun q => q ++ ";\n") ++ [g.generateCreateTable] ++
        g.postQueries.map (fun q => q ++ ";\n") := by
  have hk : g.numRows.toNat = 0 := by omega
  have hsz := groupHeader_size g
  simp [Generator.Generate, rowLoop_zero, writeStrs_eq, hk, hsz,
    Generator.generatePreQueries, Generator.generatePostQueries]

/-- With a non-zero batch size and columns that cannot panic the run completes. -/
theorem Generate_ok (h : Host) (g : Generator) (r : Rng) (hB : g.batchNum ≠ 0)
    (hok : ColsOK h g.fieldDefs) : (g.Generate h r).panic = none := by
  rw [(Generate_eq h g r hB).1]
  exact genRows_ok h g.fieldDefs hok g.numRows.toNat r

/-- The writes of a complete run with a non-zero batch size. -/
theorem Generate_complete (h : Host) (g : Generator) (r : Rng) (hB : g.batchNum ≠ 0)
    (hp : (g.Generate h r).panic = none) :
    (genRows h g.fieldDefs g.numRows.toNat r).1.length = g.numRows.toNat ∧
    GroupWrites g (g.Generate h r)
      ((allGroups g.batchNum
        ((genRows h g.fieldDefs g.numRows.toNat r).1.map valuesItem)).map g.renderGroup) := by
  obtain ⟨e1, e2⟩ := Generate_eq h g r hB
  rw [e1] at hp
  refine ⟨genRows_length h g.fieldDefs _ r hp, ?_⟩
  unfold GroupWrites allGroups
  rw [e2]
  simp only [hp, if_true]
  by_cases hr : (scanBy g.batchNum 1 []
      ((genRows h g.fieldDefs g.numRows.toNat r).1.map valuesItem)).2 = []
  · simp [hr]
  · simp [hr]

/-! ## Ceiling of a quotient -/

theorem ceil_bounds (N B : Nat) (hB : 1 ≤ B) (hN : 0 < N) :
    ((N + B - 1) / B - 1) * B < N ∧ N ≤ ((N + B - 1) / B) * B ∧ 0 < (N + B - 1) / B := by
  rw [ceil_div_cases N B hB]
  have hdm := Nat.div_add_mod N B
  have hlt := Nat.mod_lt N (show B > 0 by omega)
  by_cases hm : N % B = 0
  · simp only [hm, if_true, Nat.add_zero]
    rw [hm, Nat.add_zero] at hdm
    obtain ⟨d, hd⟩ : ∃ d, N / B = d + 1 := by
      rcases Nat.eq_zero_or_pos (N / B) with h0 | h0
      · rw [h0] at hdm; omega
      · exact ⟨N / B - 1, by omega⟩
    rw [hd] at hdm ⊢
    have e1 : B * (d + 1) = d * B + B := by ring
    have e2 : (d + 1) * B = d * B + B := by ring
    simp only [Nat.add_sub_cancel]
    omega
  · simp only [hm, if_false, Nat.add_sub_cancel]
    have e1 : B * (N / B) = N / B * B := by ring
    have e2 : (N / B + 1) * B = N / B * B + B := by ring
    rw [e2]
    refine ⟨by omega, by omega, Nat.succ_pos _⟩

theorem ceil_rat_eq (N B : Nat) (hB : 1 ≤ B) : ⌈(N : ℚ) / (B : ℚ)⌉₊ = (N + B - 1) / B := by
  have hBq : (0 : ℚ) < (B : ℚ) := by exact_mod_cast hB
  rcases Nat.eq_zero_or_pos N with h0 | hpos
  · subst h0
    have : (B - 1) / B = 0 := Nat.div_eq_of_lt (by omega)
    simp [this]
  · obtain ⟨b1, b2, b3⟩ := ceil_bounds N B hB hpos
    rw [Nat.ceil_eq_iff (by omega)]
    constructor
    · rw [lt_div_iff₀ hBq]
      exact_mod_cast b1
    · rw [div_le_iff₀ hBq]
      exact_mod_cast b2


/-! ## Group count and group size -/

theorem renderGroup_closing (g : Generator) (c : List String) (hne : c ≠ [])
    (hitems : ∀ x ∈ c, ∃ tokens, x = valuesItem tokens) :
    ∃ body, g.renderGroup c = g.groupHeader ++ body ++ "));\n" := by
  have hlast := List.dropLast_append_getLast hne
  obtain ⟨tokens, ht⟩ := hitems _ (List.getLast_mem hne)
  refine ⟨trail c.dropLast ++ "VALUES (" ++ stringsJoin tokens ",", ?_⟩
  unfold Generator.renderGroup
  rw [← hlast, stringsJoin_snoc, hlast, ht]
  unfold valuesItem
  simp only [String.append_assoc]
  rfl

/-- C3. For every generator with a non-zero batch size (in particular `B >= 1`),
every `num_rows` and every sequence of random draws, whether or not the run
completes: the writes are the prelude lines, the `CREATE TABLE` line, then one
write per group, then the postlude lines if the run completed; each group
write is exactly the header `BATCHINSERT INTO <table_name> BATCHVALUES(`
followed by one or more `VALUES (...)` items joined by exactly one `,` and then
the closing `);` and newline, so it ends with the `)` of its last item followed
by `);` and never with `,);`; when the run completes the groups hold all
`num_rows` items. -/
theorem group_framing (h : Host) (g : Generator) (r : Rng) (hB : g.batchNum ≠ 0) :
    ∃ groups : List (List String),
      (g.Generate h r).writes =
        g.preQueries.map (fun q => q ++ ";\n") ++ [g.generateCreateTable] ++
          groups.map (fun c => g.groupHeader ++ stringsJoin c "," ++ ");\n") ++
          (if (g.Generate h r).panic = none then g.postQueries.map (fun q => q ++ ";\n")
           else []) ∧
      (∀ c ∈ groups, c ≠ [] ∧ (∀ x ∈ c, ∃ tokens, x = valuesItem tokens) ∧
        ∃ body, g.groupHeader ++ stringsJoin c "," ++ ");\n" =
          g.groupHeader ++ body ++ "));\n") ∧
      ((g.Generate h r).panic = none → groups.flatten.length = g.numRows.toNat) := by
  obtain ⟨e1, e2⟩ := Generate_eq h g r hB
  have hfun : (fun c => g.groupHeader ++ stringsJoin c "," ++ ");\n") = g.renderGroup := rfl
  have hmem : ∀ x ∈ (genRows h g.fieldDefs g.numRows.toNat r).1.map valuesItem,
      ∃ tokens, x = valuesItem tokens := by
    intro x hx
    obtain ⟨row, _, rfl⟩ := List.mem_map.mp hx
    exact ⟨row, rfl⟩
  cases hp : (genRows h g.fieldDefs g.numRows.toNat r).2 with
  | some p =>
    rw [hp] at e1
    refine ⟨(scanBy g.batchNum 1 []
      ((genRows h g.fieldDefs g.numRows.toNat r).1.map valuesItem)).1, ?_, ?_, ?_⟩
    · rw [e2, hfun]; simp [hp, e1]
    · intro c hc
      have hne := scanBy_ne_nil _ _ _ _ c hc
      have hit : ∀ x ∈ c, ∃ tokens, x = valuesItem tokens := fun x hx =>
        hmem x (by simpa using scanBy_mem _ _ _ _ c hc x hx)
      exact ⟨hne, hit, renderGroup_closing g c hne hit⟩
    · intro hnone; rw [e1] at hnone; cases hnone
  | none =>
    rw [hp] at e1
    obtain ⟨-, hlen, hgw⟩ : True ∧ _ ∧ _ := ⟨trivial, genRows_length h g.fieldDefs _ r hp, e2⟩
    refine ⟨allGroups g.batchNum
      ((genRows h g.fieldDefs g.numRows.toNat r).1.map valuesItem), ?_, ?_, ?_⟩
    · rw [e2]
      unfold allGroups
      by_cases hr : (scanBy g.batchNum 1 []
          ((genRows h g.fieldDefs g.numRows.toNat r).1.map valuesItem)).2 = []
      · rw [hfun]; simp [hp, e1, hr]
      · rw [hfun]; simp [hp, e1, hr]
    · intro c hc
      have hne := allGroups_ne_nil _ _ c hc
      have hit : ∀ x ∈ c, ∃ tokens, x = valuesItem tokens := by
        intro x hx
        apply hmem
        rw [← allGroups_flatten g.batchNum
          ((genRows h g.fieldDefs g.numRows.toNat r).1.map valuesItem)]
        exact List.mem_flatten.mpr ⟨c, hc, hx⟩
      exact ⟨hne, hit, renderGroup_closing g c hne hit⟩
    · intro _
      rw [allGroups_flatten, List.length_map, hlen]

/-- An instance of `group_framing`: scenario S3. -/
theorem group_framing_witness :
    batchGen.batchNum ≠ 0 ∧
    ∃ groups : List (List String),
      (batchGen.Generate sampleHost sampleRng).writes =
        batchGen.preQueries.map (fun q => q ++ ";\n") ++ [batchGen.generateCreateTable] ++
          groups.map (fun c => batchGen.groupHeader ++ stringsJoin c "," ++ ");\n") ++
          (if (batchGen.Generate sampleHost sampleRng).panic = none then
            batchGen.postQueries.map (fun q => q ++ ";\n")
           else []) ∧
      (∀ c ∈ groups, c ≠ [] ∧ (∀ x ∈ c, ∃ tokens, x = valuesItem tokens) ∧
        ∃ body, batchGen.groupHeader ++ stringsJoin c "," ++ ");\n" =
          batchGen.groupHeader ++ body ++ "));\n") ∧
      ((batchGen.Generate sampleHost sampleRng).panic = none →
        groups.flatten.length = batchGen.numRows.toNat) :=
  ⟨by decide, group_framing sampleHost batchGen sampleRng (by decide)⟩


/-! ## The empty table and the `CREATE TABLE` line -/

theorem foldl_append_singleton {α β : Type} (f : α → β) (l : List α) (acc : List β) :
    l.foldl (fun acc a => acc ++ [f a]) acc = acc ++ l.map f := by
  induction l generalizing acc with
  | nil => simp
  | cons a rest ih => simp [List.foldl_cons, ih]

theorem generateCreateTable_eq (g : Generator) :
    g.generateCreateTable =
      "CREATE TABLE " ++ g.tableName ++ " (" ++
        stringsJoin (g.fieldDefs.map (fun f => f.Name ++ " " ++ f.Typ)) "," ++
        ") STORED AS " ++ g.storageFormat ++
        (if g.tableProps = [] then ""
         else " TBLPROPERTIES(" ++
           stringsJoin (g.tableProps.map (fun kv => "'" ++ kv.1 ++ "'='" ++ kv.2 ++ "'")) "," ++
           ")") ++
        ";\n" := by
  unfold Generator.generateCreateTable
  simp only [foldl_append_singleton (fun f : FieldSchema => f.Name ++ " " ++ f.Typ),
    foldl_append_singleton (fun kv : String × String => "'" ++ kv.1 ++ "'='" ++ kv.2 ++ "'"),
    List.nil_append, String.empty_append]
  by_cases hp : g.tableProps = []
  · simp [hp, String.append_assoc]
  · have hlen : g.tableProps.length > 0 := List.length_pos.mpr hp
    simp [hp, hlen, String.append_assoc]

/-- C4. For every generator with `num_rows = 0` (any batch size, any columns,
any random draws) `Generate` completes and writes exactly the prelude lines, the
`CREATE TABLE` line and the postlude lines, hence no `BATCHINSERT` group; for
scenario S1 (table `t`, no fields, format `parquet`, no properties, no prelude
or postlude, batch size 10) `NewGenerator` succeeds and the whole file is
exactly the line `CREATE TABLE t () STORED AS parquet;`. -/
theorem empty_table (h : Host) (g : Generator) (r : Rng) (hN : g.numRows = 0) :
    (g.Generate h r).panic = none ∧
    (g.Generate h r).writes =
      g.preQueries.map (fun q => q ++ ";\n") ++ [g.generateCreateTable] ++
        g.postQueries.map (fun q => q ++ ";\n") ∧
    ∃ g1, NewGenerator emptyConfig = .ok g1 ∧
      (g1.Generate h r).fileName = "t.sql" ∧
      fileContents (g1.Generate h r).writes = "CREATE TABLE t () STORED AS parquet;\n" := by
  obtain ⟨e1, e2⟩ := Generate_noRows h g r (by omega)
  have hs1 := (Generate_noRows h emptyGen r (by decide)).2
  refine ⟨e1, e2, emptyGen, rfl, rfl, ?_⟩
  rw [hs1]
  decide

/-- An instance of `empty_table`: scenario S4 with `num_rows` set to zero. -/
theorem empty_table_witness :
    ({ preludeGen with numRows := 0 } : Generator).numRows = 0 ∧
    (({ preludeGen with numRows := 0 } : Generator).Generate sampleHost sampleRng).writes =
      ["SET x=1;\n", "USE db;\n", "CREATE TABLE t (c int) STORED AS parquet;\n",
        "ANALYZE t;\n"] :=
  ⟨rfl, by
    have e := (empty_table sampleHost { preludeGen with numRows := 0 } sampleRng rfl).2.1
    rw [e]; decide⟩

/-- C5. For every generator state `generateCreateTable` returns exactly
`CREATE TABLE <table_name> (` + the columns rendered as `<name> <type>` and
joined by `,` in column-list order + `) STORED AS <storage_format>` + the
properties clause + `;` and a newline, where the clause is empty when
`table_props` is empty and otherwise is ` TBLPROPERTIES(` + one quoted
`'k'='v'` pair per property, in visiting order, joined by `,` + `)`. -/
theorem create_table_rendering (g : Generator) :
    g.generateCreateTable =
      "CREATE TABLE " ++ g.tableName ++ " (" ++
        stringsJoin (g.fieldDefs.map (fun f => f.Name ++ " " ++ f.Typ)) "," ++
        ") STORED AS " ++ g.storageFormat ++
        (if g.tableProps = [] then ""
         else " TBLPROPERTIES(" ++
           stringsJoin (g.tableProps.map (fun kv => "'" ++ kv.1 ++ "'='" ++ kv.2 ++ "'")) "," ++
           ")") ++
        ";\n" :=
  generateCreateTable_eq g


/-! ## Row arity and column order -/

/-- The group writes of any run, complete or not, whatever the batch size: every
group written is not empty and holds items of generated rows. -/
theorem Generate_groups (h : Host) (g : Generator) (r : Rng) :
    ∃ groups : List (List String),
      (g.Generate h r).writes =
        g.preQueries.map (fun q => q ++ ";\n") ++ [g.generateCreateTable] ++
          groups.map g.renderGroup ++
          (if (g.Generate h r).panic = none then g.postQueries.map (fun q => q ++ ";\n")
           else []) ∧
      (∀ c ∈ groups, c ≠ [] ∧
        ∀ x ∈ c, x ∈ (genRows h g.fieldDefs g.numRows.toNat r).1.map valuesItem) ∧
      ((g.Generate h r).panic = none → groups.flatten.length = g.numRows.toNat) := by
  by_cases hB : g.batchNum = 0
  · by_cases hN : 1 ≤ g.numRows
    · obtain ⟨e1, e2⟩ := Generate_batchZero h g r hB hN
      have hp : (g.Generate h r).panic ≠ none := by
        rw [e2]; cases genRow h g.fieldDefs r <;> simp
      refine ⟨[], ?_, ?_, ?_⟩
      · rw [e1]; simp [hp]
      · intro c hc; cases hc
      · intro hnone; exact absurd hnone hp
    · obtain ⟨e1, e2⟩ := Generate_noRows h g r (by omega)
      refine ⟨[], ?_, ?_, ?_⟩
      · rw [e2]; simp [e1]
      · intro c hc; cases hc
      · intro _; simp; omega
  · obtain ⟨e1, e2⟩ := Generate_eq h g r hB
    cases hp : (genRows h g.fieldDefs g.numRows.toNat r).2 with
    | some p =>
      rw [hp] at e1
      refine ⟨(scanBy g.batchNum 1 []
        ((genRows h g.fieldDefs g.numRows.toNat r).1.map valuesItem)).1, ?_, ?_, ?_⟩
      · rw [e2]; simp [hp, e1]
      · intro c hc
        exact ⟨scanBy_ne_nil _ _ _ _ c hc,
          fun x hx => by simpa using scanBy_mem _ _ _ _ c hc x hx⟩
      · intro hnone; rw [e1] at hnone; cases hnone
    | none =>
      rw [hp] at e1
      have hlen := genRows_length h g.fieldDefs _ r hp
      refine ⟨allGroups g.batchNum
        ((genRows h g.fieldDefs g.numRows.toNat r).1.map valuesItem), ?_, ?_, ?_⟩
      · rw [e2]
        unfold allGroups
        by_cases hr : (scanBy g.batchNum 1 []
            ((genRows h g.fieldDefs g.numRows.toNat r).1.map valuesItem)).2 = []
        · simp [hp, e1, hr]
        · simp [hp, e1, hr]
      · intro c hc
        refine ⟨allGroups_ne_nil _ _ c hc, fun x hx => ?_⟩
        rw [← allGroups_flatten g.batchNum
          ((genRows h g.fieldDefs g.numRows.toNat r).1.map valuesItem)]
        exact List.mem_flatten.mpr ⟨c, hc, hx⟩
      · intro _
        rw [allGroups_flatten, List.length_map, hlen]

theorem genValue_congr (h : Host) (f f1 : FieldSchema) (r : Rng) (hT : f.Typ = f1.Typ)
    (hR : f.Range = f1.Range) : genValue h f r = genValue h f1 r := by
  unfold genValue
  rw [hT, hR]

/-- C6. For every generator (any columns, any batch size, any `num_rows`) and
every sequence of random draws, whether or not the run completes: the group
writes of `Generate` are built from items each of which is
`VALUES (` + the tokens joined by `,` + `)`, where the token list has exactly as
many entries as `fieldDefs`, the list whose elements `generateCreateTable` renders
in the same order, and the j-th token is an output of the value generator for
the j-th element of `fieldDefs`; that output depends on the column only through
its type and range; when the run completes all `num_rows` rows are present. -/
theorem row_arity (h : Host) (g : Generator) (r : Rng) :
    ∃ groups : List (List String),
      (g.Generate h r).writes =
        g.preQueries.map (fun q => q ++ ";\n") ++ [g.generateCreateTable] ++
          groups.map (fun c => g.groupHeader ++ stringsJoin c "," ++ ");\n") ++
          (if (g.Generate h r).panic = none then g.postQueries.map (fun q => q ++ ";\n")
           else []) ∧
      (∀ c ∈ groups, ∀ x ∈ c, ∃ tokens : List String,
        x = "VALUES (" ++ stringsJoin tokens "," ++ ")" ∧
        tokens.length = g.fieldDefs.length ∧
        List.Forall₂ (fun f tok => ∃ r0 r1, genValue h f r0 = .ok (tok, r1))
          g.fieldDefs tokens) ∧
      ((g.Generate h r).panic = none → groups.flatten.length = g.numRows.toNat) ∧
      (∀ (f f1 : FieldSchema) (r0 : Rng), f.Typ = f1.Typ → f.Range = f1.Range →
        genValue h f r0 = genValue h f1 r0) ∧
      g.generateCreateTable =
        "CREATE TABLE " ++ g.tableName ++ " (" ++
          stringsJoin (g.fieldDefs.map (fun f => f.Name ++ " " ++ f.Typ)) "," ++
          ") STORED AS " ++ g.storageFormat ++
          (if g.tableProps = [] then ""
           else " TBLPROPERTIES(" ++
             stringsJoin (g.tableProps.map (fun kv => "'" ++ kv.1 ++ "'='" ++ kv.2 ++ "'")) "," ++
             ")") ++
          ";\n" := by
  obtain ⟨groups, hw, hg, hall⟩ := Generate_groups h g r
  refine ⟨groups, hw, ?_, hall, fun f f1 r0 hT hR => genValue_congr h f f1 r0 hT hR,
    generateCreateTable_eq g⟩
  intro c hc x hx
  obtain ⟨row, hrow, rfl⟩ := List.mem_map.mp ((hg c hc).2 x hx)
  obtain ⟨r0, r1, hgen⟩ := genRows_mem h g.fieldDefs _ r row hrow
  have hf := genRow_forall2 h g.fieldDefs r0 row r1 hgen
  exact ⟨row, rfl, hf.length_eq.symm, hf⟩


/-! ## `NewGenerator` -/

theorem countLoop_eq (typ : String) :
    ∀ (k : Nat) (e : FieldSchema) (i : Nat) (acc : List FieldSchema),
      countLoop typ e k i acc =
        acc ++ (List.range k).map
          (fun j => { e with Name := "col_" ++ typ ++ toString (i + j), Typ := typ }) := by
  intro k
  induction k with
  | zero => intro e i acc; simp [countLoop]
  | succ k ih =>
    intro e i acc
    rw [countLoop, ih, List.range_succ_eq_map]
    simp only [List.map_cons, List.map_map, List.append_assoc, List.singleton_append,
      Nat.add_zero]
    congr 2
    apply List.map_congr_left
    intro j _
    simp only [Function.comp, Nat.succ_eq_add_one]
    have : i + 1 + j = i + (j + 1) := by omega
    rw [this]

theorem entryCols_pos (typ : String) (e : FieldSchema) (hC : e.Count ≠ 0) :
    entryCols typ e = (List.range e.Count.toNat).map
      (fun j => { e with Name := "col_" ++ typ ++ toString j, Typ := typ }) := by
  unfold entryCols expandEntry
  simp only [hC, ne_eq, not_false_eq_true, if_true]
  rw [countLoop_eq]
  simp

theorem entryCols_zero (typ : String) (e : FieldSchema) (hC : e.Count = 0) :
    entryCols typ e = [{ e with Typ := typ }] := by
  unfold entryCols expandEntry
  simp [hC]

theorem expandEntry_eq (typ : String) (acc : List FieldSchema) (e : FieldSchema) :
    expandEntry typ acc e = acc ++ entryCols typ e := by
  by_cases hC : e.Count = 0
  · rw [entryCols_zero typ e hC]; unfold expandEntry; simp [hC]
  · rw [entryCols_pos typ e hC]; unfold expandEntry
    simp only [hC, ne_eq, not_false_eq_true, if_true]
    rw [countLoop_eq]; simp

theorem foldl_expandEntry (typ : String) (es : List FieldSchema) :
    ∀ acc : List FieldSchema,
      es.foldl (expandEntry typ) acc = acc ++ (es.map (entryCols typ)).flatten := by
  induction es with
  | nil => intro acc; simp
  | cons e rest ih => intro acc; simp [List.foldl_cons, ih, expandEntry_eq]

theorem typeCols_eq (entry : String × List FieldSchema) :
    typeCols entry = (entry.2.map (entryCols entry.1)).flatten := by
  unfold typeCols; rw [foldl_expandEntry]; simp

theorem foldl_types (F : List (String × List FieldSchema)) :
    ∀ acc : List FieldSchema,
      F.foldl (fun fieldDefs entry => entry.2.foldl (expandEntry entry.1) fieldDefs) acc =
        acc ++ (F.map typeCols).flatten := by
  induction F with
  | nil => intro acc; simp
  | cons p rest ih =>
    intro acc
    rw [List.foldl_cons, ih, foldl_expandEntry, List.map_cons, List.flatten_cons, typeCols_eq,
      List.append_assoc]

theorem NewGenerator_fieldDefs (config : Config) :
    ∃ g, NewGenerator config = .ok g ∧
      g.fieldDefs = (config.Schema.Fields.map typeCols).flatten := by
  refine ⟨_, rfl, ?_⟩
  simp [foldl_types]

/-- `NewGenerator` copies every setting other than the field map unchanged. -/
theorem NewGenerator_settings (config : Config) :
    ∃ g, NewGenerator config = .ok g ∧
      g.numRows = config.NumRows ∧ g.tableName = config.TableName ∧
      g.batchNum = config.WriteBatchNum ∧
      g.storageFormat = config.Schema.StorageFormat ∧
      g.tableProps = config.Schema.TableProps ∧
      g.preQueries = config.PreQueries ∧ g.postQueries = config.PostQueries :=
  ⟨_, rfl, rfl, rfl, rfl, rfl, rfl, rfl, rfl⟩

theorem entryCols_typ (typ : String) (e : FieldSchema) : ∀ c ∈ entryCols typ e, c.Typ = typ := by
  intro c hc
  by_cases hC : e.Count = 0
  · rw [entryCols_zero typ e hC] at hc
    simp at hc; rw [hc]
  · rw [entryCols_pos typ e hC] at hc
    obtain ⟨j, _, rfl⟩ := List.mem_map.mp hc
    rfl

theorem typeCols_typ (entry : String × List FieldSchema) : ∀ c ∈ typeCols entry, c.Typ = entry.1 := by
  intro c hc
  rw [typeCols_eq] at hc
  obtain ⟨l, hl, hcl⟩ := List.mem_flatten.mp hc
  obtain ⟨e, _, rfl⟩ := List.mem_map.mp hl
  exact entryCols_typ _ e c hcl


/-- C7 (amended). For every type tag `typ` and every entry `e` with non-negative
count `C` in the field list of `typ`: the column list `NewGenerator` builds is the
list it builds without the entry, with the columns of the entry inserted at the
entry's place; these are exactly the `C` columns `col_<typ><i>`, `i = 0..C-1`
in increasing order (decimal `i`), when `C > 0`, and exactly the one column named
by the entry's `name` when `C = 0`; every contributed column has type `typ` and
the entry's range; when `C > 0` the result does not depend on the entry's own
`name`, which is among the contributed names only if it equals one of the
synthetic names. -/
theorem field_expansion (config : Config) (typ : String) (e : FieldSchema) (C : Nat)
    (F1 F2 : List (String × List FieldSchema)) (es1 es2 : List FieldSchema)
    (hF : config.Schema.Fields = F1 ++ (typ, es1 ++ e :: es2) :: F2) (hC : e.Count = C) :
    ∃ g g0 before after,
      NewGenerator config = .ok g ∧
      NewGenerator { config with
        Schema := { config.Schema with Fields := F1 ++ (typ, es1 ++ es2) :: F2 } } = .ok g0 ∧
      g.fieldDefs = before ++ entryCols typ e ++ after ∧
      g0.fieldDefs = before ++ after ∧
      (0 < C → entryCols typ e = (List.range C).map
        (fun i => { e with Name := "col_" ++ typ ++ toString i, Typ := typ })) ∧
      (C = 0 → entryCols typ e = [{ e with Typ := typ }]) ∧
      (entryCols typ e).length = (if C = 0 then 1 else C) ∧
      (∀ c ∈ entryCols typ e, c.Typ = typ ∧ c.Range = e.Range) ∧
      (0 < C → ∀ n : String, entryCols typ { e with Name := n } = entryCols typ e) ∧
      (0 < C → ((∃ c ∈ entryCols typ e, c.Name = e.Name) ↔
        ∃ i, i < C ∧ e.Name = "col_" ++ typ ++ toString i)) := by
  obtain ⟨g, hg, hfd⟩ := NewGenerator_fieldDefs config
  obtain ⟨g0, hg0, hfd0⟩ := NewGenerator_fieldDefs { config with
    Schema := { config.Schema with Fields := F1 ++ (typ, es1 ++ es2) :: F2 } }
  have hpos : 0 < C → entryCols typ e = (List.range C).map
      (fun i => { e with Name := "col_" ++ typ ++ toString i, Typ := typ }) := by
    intro h0
    rw [entryCols_pos typ e (by omega), hC]; rfl
  have hzero : C = 0 → entryCols typ e = [{ e with Typ := typ }] := by
    intro h0
    exact entryCols_zero typ e (by omega)
  refine ⟨g, g0, (F1.map typeCols).flatten ++ (es1.map (entryCols typ)).flatten,
    (es2.map (entryCols typ)).flatten ++ (F2.map typeCols).flatten, hg, hg0, ?_, ?_,
    hpos, hzero, ?_, ?_, ?_, ?_⟩
  · rw [hfd, hF]
    simp [typeCols_eq]
  · rw [hfd0]
    simp [typeCols_eq]
  · by_cases h0 : C = 0
    · rw [hzero h0]; simp [h0]
    · rw [hpos (by omega)]; simp [h0]
  · intro c hc
    refine ⟨entryCols_typ typ e c hc, ?_⟩
    by_cases h0 : C = 0
    · rw [hzero h0] at hc
      simp at hc; rw [hc]
    · rw [hpos (by omega)] at hc
      obtain ⟨j, _, rfl⟩ := List.mem_map.mp hc
      rfl
  · intro h0 n
    rw [entryCols_pos typ e (by omega), entryCols_pos typ { e with Name := n } (by simpa using (by omega : e.Count ≠ 0))]
  · intro h0
    rw [hpos h0]
    constructor
    · rintro ⟨c, hc, hname⟩
      obtain ⟨j, hj, rfl⟩ := List.mem_map.mp hc
      exact ⟨j, List.mem_range.mp hj, hname.symm⟩
    · rintro ⟨i, hi, hname⟩
      exact ⟨_, List.mem_map.mpr ⟨i, List.mem_range.mpr hi, rfl⟩, hname.symm⟩

/-- An instance of `field_expansion`: the counted `int` entry of `mixedConfig`. -/
theorem field_expansion_witness :
    mixedConfig.Schema.Fields =
      [] ++ ("int", [] ++ (⟨"ignored", 2, 0, none, ""⟩ : FieldSchema) :: [⟨"id", 0, 0, none, ""⟩]) ::
        [("boolean", [⟨"", 1, 0, none, ""⟩])] ∧
    entryCols "int" (⟨"ignored", 2, 0, none, ""⟩ : FieldSchema) =
      [⟨"col_int0", 2, 0, none, "int"⟩, ⟨"col_int1", 2, 0, none, "int"⟩] := by
  refine ⟨rfl, ?_⟩
  obtain ⟨_, _, _, _, _, _, _, _, hpos, _⟩ :=
    field_expansion mixedConfig "int" ⟨"ignored", 2, 0, none, ""⟩ 2 [] [("boolean", [⟨"", 1, 0, none, ""⟩])]
      [] [⟨"id", 0, 0, none, ""⟩] rfl rfl
  rw [hpos (by decide)]
  decide

/-- C7 as stated fails in its last clause: an entry with `count: 1` under `int`
whose own name is `col_int0` yields the single column `col_int0`, so the entry's
name does appear in the result. -/
theorem field_expansion_name_appears :
    0 < clashEntry.Count ∧
    ∃ g, NewGenerator clashConfig = .ok g ∧ ∃ c ∈ g.fieldDefs, c.Name = clashEntry.Name :=
  ⟨by decide, _, rfl, ⟨"col_int0", 1, 0, none, "int"⟩, by decide, by decide⟩

/-- C8. For every configuration, whose `fields` mapping is given with its type
tags in the order visited, `NewGenerator` returns no error and the column list
is the concatenation, over the type tags in that order, of the concatenation in
field-list order of the columns of each entry; an empty mapping yields the empty
list; and for a type tag that occurs once (as the keys of a map do) the columns
of that type are contiguous, in the order of the tag's field list, with no
column of that type before or after. -/
theorem expansion_order (config : Config) :
    ∃ g, NewGenerator config = .ok g ∧
      g.fieldDefs =
        (config.Schema.Fields.map
          (fun entry => (entry.2.map (entryCols entry.1)).flatten)).flatten ∧
      (config.Schema.Fields = [] → g.fieldDefs = []) ∧
      (∀ (typ : String) (es : List FieldSchema) (F1 F2 : List (String × List FieldSchema)),
        config.Schema.Fields = F1 ++ (typ, es) :: F2 → (∀ p ∈ F1 ++ F2, p.1 ≠ typ) →
        ∃ before after,
          g.fieldDefs = before ++ (es.map (entryCols typ)).flatten ++ after ∧
          (∀ c ∈ (es.map (entryCols typ)).flatten, c.Typ = typ) ∧
          (∀ c ∈ before ++ after, c.Typ ≠ typ)) := by
  obtain ⟨g, hg, hfd⟩ := NewGenerator_fieldDefs config
  have hfun : (fun entry : String × List FieldSchema =>
      (entry.2.map (entryCols entry.1)).flatten) = typeCols := by
    funext entry; rw [typeCols_eq]
  refine ⟨g, hg, ?_, ?_, ?_⟩
  · rw [hfd, hfun]
  · intro h0; rw [hfd, h0]; rfl
  · intro typ es F1 F2 hF hkeys
    refine ⟨(F1.map typeCols).flatten, (F2.map typeCols).flatten, ?_, ?_, ?_⟩
    · rw [hfd, hF]; simp [typeCols_eq]
    · intro c hc
      have := typeCols_typ (typ, es) c (by rw [typeCols_eq]; exact hc)
      exact this
    · intro c hc
      have hmemF : ∀ F : List (String × List FieldSchema), (∀ p ∈ F, p.1 ≠ typ) →
          c ∈ (F.map typeCols).flatten → c.Typ ≠ typ := by
        intro F hFk hcF
        obtain ⟨l, hl, hcl⟩ := List.mem_flatten.mp hcF
        obtain ⟨p, hp, rfl⟩ := List.mem_map.mp hl
        rw [typeCols_typ p c hcl]
        exact hFk p hp
      rcases List.mem_append.mp hc with h1 | h2
      · exact hmemF F1 (fun p hp => hkeys p (List.mem_append_left _ hp)) h1
      · exact hmemF F2 (fun p hp => hkeys p (List.mem_append_right _ hp)) h2

/-- An instance of `expansion_order`: the column list of `mixedConfig`. -/
theorem expansion_order_witness :
    ∃ g, NewGenerator mixedConfig = .ok g ∧
      g.fieldDefs.map (fun c => (c.Name, c.Typ)) =
        [("col_int0", "int"), ("col_int1", "int"), ("id", "int"), ("col_boolean0", "boolean")] := by
  obtain ⟨g, hg, hfd, _⟩ := expansion_order mixedConfig
  refine ⟨g, hg, ?_⟩
  rw [hfd]
  decide


/-! ## Prelude, postlude and file layout -/

theorem fileContents_append (a b : List String) :
    fileContents (a ++ b) = fileContents a ++ fileContents b := by
  induction a with
  | nil => simp [fileContents]
  | cons w ws ih => simp [fileContents, ih, String.append_assoc]

/-- Range respect of `int` columns when the span fits `int64`: for bounds
`s < e` of the `int64` range with `e - s < 2^63`, and without a range for the
default `[-100, 100)`, the token is the decimal rendering of a value of the
interval, for every random draw. -/
theorem int_range_respect (h : Host) (f : FieldSchema) (r : Rng) (hT : f.Typ = "int") :
    (f.Range = none →
      ∃ v : Int, ∃ r1, genValue h f r = .ok (toString v, r1) ∧ -100 ≤ v ∧ v < 100) ∧
    (∀ s e : Int, f.Range = some ⟨.int s, .int e⟩ → -(2 ^ 63) ≤ s → e < 2 ^ 63 → s < e →
      e - s < 2 ^ 63 →
      ∃ v : Int, ∃ r1, genValue h f r = .ok (toString v, r1) ∧ s ≤ v ∧ v < e) := by
  constructor
  · intro hR
    have hw : wrapInt64 (100 - -100) = 200 := by decide
    have hm0 := Int.emod_nonneg (r.peek : Int) (show (200 : Int) ≠ 0 by decide)
    have hm1 := Int.emod_lt_of_pos (r.peek : Int) (show (0 : Int) < 200 by decide)
    have e5 : wrapInt64 (-100 + (r.peek : Int) % 200) = -100 + (r.peek : Int) % 200 :=
      wrapInt64_eq _ (by omega) (by omega)
    refine ⟨-100 + (r.peek : Int) % 200, r.advance, ?_, by omega, by omega⟩
    unfold genValue
    simp only [hT, if_true, hR, randInt63n, hw]
    simp [e5]
  · intro s e hR b1 b3 b2 b4
    have e1 : wrapInt64 s = s := wrapInt64_eq s b1 (by omega)
    have e2 : wrapInt64 e = e := wrapInt64_eq e (by omega) b3
    have e3 : wrapInt64 (e - s) = e - s := wrapInt64_eq _ (by omega) b4
    have e4 : ¬ (e - s ≤ 0) := by omega
    have hm0 := Int.emod_nonneg (r.peek : Int) (show e - s ≠ 0 by omega)
    have hm1 := Int.emod_lt_of_pos (r.peek : Int) (show 0 < e - s by omega)
    have e5 : wrapInt64 (s + (r.peek : Int) % (e - s)) = s + (r.peek : Int) % (e - s) :=
      wrapInt64_eq _ (by omega) (by omega)
    refine ⟨s + (r.peek : Int) % (e - s), r.advance, ?_, by omega, by omega⟩
    unfold genValue
    simp only [hT, if_true, hR, assertInt, e1, e2, e3, randInt63n, e4, if_false, e5]

/-- C10 at the failing input: for the `int` column with range
`[-2^62, 2^62)` (so `s < e`, both `int64`), `maxInt - minInt` wraps to `-2^63`
and `rand.Int63n` panics, for every host and every random draw: no token is
emitted. -/
theorem int_range_overflow (h : Host) (r : Rng) :
    genValue h wideIntCol r = .error Panic.randInvalidArg := by
  have hw : wrapInt64 (wrapInt64 4611686018427387904 - wrapInt64 (-4611686018427387904)) =
      -9223372036854775808 := by decide
  simp [genValue, wideIntCol, assertInt, randInt63n, hw]


/-! ## Negative counts and duplicate names -/

theorem entryCols_neg (typ : String) (e : FieldSchema) (hC : e.Count < 0) :
    entryCols typ e = [] := by
  rw [entryCols_pos typ e (by omega)]
  have : e.Count.toNat = 0 := by omega
  simp [this]

theorem entryCols_length (typ : String) (e : FieldSchema) :
    (entryCols typ e).length = countCols e.Count := by
  unfold countCols
  by_cases h0 : e.Count = 0
  · rw [entryCols_zero typ e h0]; simp [h0]
  · rw [entryCols_pos typ e h0]
    by_cases hp : 0 < e.Count
    · simp [hp]
    · have : e.Count.toNat = 0 := by omega
      simp [hp, h0, this]

theorem typeCols_length (entry : String × List FieldSchema) :
    (typeCols entry).length = (entry.2.map (fun e => countCols e.Count)).sum := by
  rw [typeCols_eq]
  induction entry.2 with
  | nil => simp
  | cons e rest ih => simp [entryCols_length, ih]

/-- C18. For every type tag and every entry with `count < 0`, the expansion of
the entry is empty: `NewGenerator` builds the same column list as without the
entry, so neither a synthetic column nor the column named by `name` is
contributed; and for every configuration the number of expanded columns is the
sum over all entries of `count` when `count > 0`, 1 when `count = 0` and 0 when
`count < 0`. -/
theorem negative_count_drops (config : Config) :
    (∀ (typ : String) (e : FieldSchema), e.Count < 0 →
      entryCols typ e = [] ∧ ∀ acc, expandEntry typ acc e = acc) ∧
    (∀ (typ : String) (e : FieldSchema) (F1 F2 : List (String × List FieldSchema))
        (es1 es2 : List FieldSchema),
      e.Count < 0 → config.Schema.Fields = F1 ++ (typ, es1 ++ e :: es2) :: F2 →
      NewGenerator config =
        NewGenerator { config with
          Schema := { config.Schema with Fields := F1 ++ (typ, es1 ++ es2) :: F2 } }) ∧
    ∃ g, NewGenerator config = .ok g ∧
      g.fieldDefs.length =
        (config.Schema.Fields.map
          (fun entry => (entry.2.map (fun e =>
            if 0 < e.Count then e.Count.toNat else if e.Count = 0 then 1 else 0)).sum)).sum := by
  refine ⟨?_, ?_, ?_⟩
  · intro typ e hC
    refine ⟨entryCols_neg typ e hC, fun acc => ?_⟩
    rw [expandEntry_eq, entryCols_neg typ e hC, List.append_nil]
  · intro typ e F1 F2 es1 es2 hC hF
    unfold NewGenerator
    simp only [foldl_types, hF, List.nil_append]
    have : typeCols (typ, es1 ++ e :: es2) = typeCols (typ, es1 ++ es2) := by
      simp [typeCols_eq, entryCols_neg typ e hC]
    simp [this]
  · obtain ⟨g, hg, hfd⟩ := NewGenerator_fieldDefs config
    refine ⟨g, hg, ?_⟩
    rw [hfd]
    have hfun : (fun entry : String × List FieldSchema => (entry.2.map (fun e =>
        if 0 < e.Count then e.Count.toNat else if e.Count = 0 then 1 else 0)).sum) =
        fun entry => (typeCols entry).length := by
      funext entry; rw [typeCols_length]; rfl
    rw [hfun]
    induction config.Schema.Fields with
    | nil => simp
    | cons p rest ih => simp [ih]

/-- An instance of `negative_count_drops`: the entry with `count: -3` of
`negCountConfig` leaves the columns `col_int0`, `col_int1`, `id`. -/
theorem negative_count_drops_witness :
    (⟨"dropped", -3, 0, none, ""⟩ : FieldSchema).Count < 0 ∧
    entryCols "int" ⟨"dropped", -3, 0, none, ""⟩ = [] ∧
    ∃ g, NewGenerator negCountConfig = .ok g ∧ g.fieldDefs.length = 3 := by
  have t := negative_count_drops negCountConfig
  obtain ⟨g, hg, hlen⟩ := t.2.2
  exact ⟨by decide, (t.1 "int" ⟨"dropped", -3, 0, none, ""⟩ (by decide)).1, g, hg,
    by rw [hlen]; decide⟩


theorem digitChar_val (d : Nat) (hd : d < 10) : (Nat.digitChar d).toNat - 48 = d := by
  interval_cases d <;> rfl

theorem decodeDigits_toDigitsCore :
    ∀ (fuel n : Nat) (ds : List Char), n < fuel →
      decodeDigits 0 (Nat.toDigitsCore 10 fuel n ds) = decodeDigits n ds := by
  intro fuel
  induction fuel with
  | zero => intro n ds h; omega
  | succ fuel ih =>
    intro n ds h
    rw [Nat.toDigitsCore]
    have hd := digitChar_val (n % 10) (Nat.mod_lt n (by decide))
    by_cases h0 : n / 10 = 0
    · simp only [h0, if_true]
      have hn : n % 10 = n := by omega
      rw [hn] at hd
      simp only [decodeDigits, List.foldl_cons, hn, hd]
      simp
    · simp only [h0, if_false]
      rw [ih (n / 10) _ (by omega)]
      simp only [decodeDigits, List.foldl_cons, hd]
      congr 1
      omega

theorem decodeDigits_repr (n : Nat) : decodeDigits 0 (Nat.repr n).data = n := by
  have h := decodeDigits_toDigitsCore (n + 1) n [] (by omega)
  simpa [Nat.repr, Nat.toDigits, decodeDigits] using h

theorem natToString_injective (i j : Nat) (h : toString i = toString j) : i = j := by
  have h1 : Nat.repr i = Nat.repr j := h
  have := congrArg (fun s : String => decodeDigits 0 s.data) h1
  simpa [decodeDigits_repr] using this

theorem string_append_left_cancel (a b c : String) (h : a ++ b = a ++ c) : b = c := by
  have hd := congrArg String.data h
  rw [String.data_append, String.data_append] at hd
  exact String.ext (List.append_cancel_left hd)

/-- C19. Column names are not always distinct: for the field map with the one
type tag `int` and the two entries `{count: 1}`, `{count: 1}`, the column list
built by `NewGenerator` has the names `col_int0`, `col_int0`, since the
synthetic index restarts at 0 for every entry; within the expansion of a single
entry, whatever its type tag and count, the names are pairwise distinct. -/
theorem names_not_distinct :
    (∃ g, NewGenerator dupConfig = .ok g ∧
      g.fieldDefs.map (fun c => c.Name) = ["col_int0", "col_int0"] ∧
      ¬ (g.fieldDefs.map (fun c => c.Name)).Nodup) ∧
    (∀ (typ : String) (e : FieldSchema), ((entryCols typ e).map (fun c => c.Name)).Nodup) := by
  refine ⟨⟨_, rfl, by decide, by decide⟩, ?_⟩
  intro typ e
  by_cases h0 : e.Count = 0
  · rw [entryCols_zero typ e h0]; simp
  · rw [entryCols_pos typ e h0, List.map_map]
    apply List.Nodup.map _ (List.nodup_range _)
    intro i j hij
    simp only [Function.comp] at hij
    exact natToString_injective i j (string_append_left_cancel _ _ _ hij)


/-! ## Unknown and boolean type tags -/

theorem genValue_unknown (h : Host) (f : FieldSchema) (r : Rng) (hT : f.Typ ∉ knownTags) :
    genValue h f r = .ok ("", r) := by
  simp only [knownTags, List.mem_cons, List.mem_singleton, List.not_mem_nil, or_false,
    not_or] at hT
  obtain ⟨h1, h2, h3, h4, h5, h6⟩ := hT
  simp [genValue, h1, h2, h3, h4, h5, h6]

theorem genValue_boolean (h : Host) (f : FieldSchema) (r : Rng) (hT : f.Typ = "boolean") :
    genValue h f r =
      .ok (if Int.tmod (randInt r).1 2 = 0 then "true" else "false", r.advance) := by
  simp [genValue, hT, randInt]

theorem genRow_unknown (h : Host) (cols : List FieldSchema) (hT : ∀ f ∈ cols, f.Typ ∉ knownTags) :
    ∀ r : Rng, genRow h cols r = .ok (cols.map (fun _ => ""), r) := by
  induction cols with
  | nil => intro r; rfl
  | cons f rest ih =>
    intro r
    have h1 := genValue_unknown h f r (hT f (by simp))
    have h2 := ih (fun f hf => hT f (by simp [hf])) r
    simp [genRow, h1, h2]

/-- C15. For every column whose type tag is none of `int`, `uint`, `float`,
`string`, `timestamp`, `boolean` the token is the empty string whatever the
range, no draw is consumed, and a row keeps one token per column (a row of such
columns is one empty token per column; every generated row has as many tokens
as columns); for every `boolean` column the token is exactly `true` or `false`,
decided by the parity of the draw and independent of any range; in scenario S2
(one row) the file is the `CREATE TABLE` line followed by the group line
`BATCHINSERT INTO t BATCHVALUES(VALUES (true));` or the same with `false`. -/
theorem unknown_and_boolean (h : Host) :
    (∀ (f : FieldSchema) (r : Rng), f.Typ ∉ knownTags → genValue h f r = .ok ("", r)) ∧
    (∀ (cols : List FieldSchema) (r : Rng), (∀ f ∈ cols, f.Typ ∉ knownTags) →
      genRow h cols r = .ok (cols.map (fun _ => ""), r)) ∧
    (∀ (cols : List FieldSchema) (r r1 : Rng) (row : List String),
      genRow h cols r = .ok (row, r1) → row.length = cols.length) ∧
    (∀ (f : FieldSchema) (r : Rng), f.Typ = "boolean" →
      genValue h f r = .ok ("true", r.advance) ∨ genValue h f r = .ok ("false", r.advance)) ∧
    (∀ (f f1 : FieldSchema) (r : Rng), f.Typ = "boolean" → f1.Typ = "boolean" →
      genValue h f r = genValue h f1 r) ∧
    (∃ g, NewGenerator boolConfig = .ok g ∧ ∀ r : Rng,
      (g.Generate h r).panic = none ∧
      ((g.Generate h r).writes =
          ["CREATE TABLE t (col_boolean0 boolean) STORED AS orc;\n",
           "BATCHINSERT INTO t BATCHVALUES(VALUES (true));\n"] ∨
        (g.Generate h r).writes =
          ["CREATE TABLE t (col_boolean0 boolean) STORED AS orc;\n",
           "BATCHINSERT INTO t BATCHVALUES(VALUES (false));\n"])) := by
  refine ⟨fun f r hT => genValue_unknown h f r hT, fun cols r hT => genRow_unknown h cols hT r,
    fun cols r r1 row hrow => (genRow_forall2 h cols r row r1 hrow).length_eq.symm, ?_, ?_, ?_⟩
  · intro f r hT
    rw [genValue_boolean h f r hT]
    by_cases hp : Int.tmod (randInt r).1 2 = 0
    · left; simp [hp]
    · right; simp [hp]
  · intro f f1 r hT hT1
    rw [genValue_boolean h f r hT, genValue_boolean h f1 r hT1]
  · refine ⟨boolGen, rfl, fun r => ?_⟩
    obtain ⟨e1, e2⟩ := Generate_eq h boolGen r (by decide)
    have hv := genValue_boolean h ⟨"col_boolean0", 1, 0, none, "boolean"⟩ r rfl
    have hk : boolGen.numRows.toNat = 1 := rfl
    rw [hk] at e1 e2
    by_cases hp : Int.tmod (randInt r).1 2 = 0
    · simp only [hp, if_true] at hv
      have hrows : genRows h boolGen.fieldDefs 1 r = ([["true"]], none) := by
        simp [boolGen, genRows, genRow, hv]
      rw [hrows] at e1 e2
      exact ⟨e1, Or.inl (by rw [e2]; decide)⟩
    · simp only [hp, if_false] at hv
      have hrows : genRows h boolGen.fieldDefs 1 r = ([["false"]], none) := by
        simp [boolGen, genRows, genRow, hv]
      rw [hrows] at e1 e2
      exact ⟨e1, Or.inr (by rw [e2]; decide)⟩


/-! ## Degenerate and wide numeric ranges -/

theorem genValue_float_ok (h : Host) (f : FieldSchema) (r : Rng) (hT : f.Typ = "float")
    (s e : Nat) (hR : f.Range = some ⟨.float64 s, .float64 e⟩) :
    genValue h f r = .ok (h.floatToken s e r.peek, r.advance) := by
  simp [genValue, hT, hR, assertFloat64]

/-- C13 at the failing inputs. An `int` column with range start 5 and end 5, an
`int` column with start 10 and end 0, and a `uint` column with `uint64` bounds 7
and 7 all have `end <= start`, and for each of them the value generator panics
in the argument check of `rand.Int63n` for every host and every random draw, so
no token is produced; a `float` column never panics, whatever its two `float64`
bounds. -/
theorem degenerate_range_panics (h : Host) (r : Rng) :
    genValue h pointIntCol r = .error Panic.randInvalidArg ∧
    genValue h backwardIntCol r = .error Panic.randInvalidArg ∧
    genValue h pointUintCol r = .error Panic.randInvalidArg ∧
    (∀ (f : FieldSchema) (s e : Nat), f.Typ = "float" →
      f.Range = some ⟨.float64 s, .float64 e⟩ →
      ∃ tok r1, genValue h f r = .ok (tok, r1)) := by
  refine ⟨?_, ?_, ?_, ?_⟩
  · have hw : wrapInt64 0 = 0 := by decide
    simp [genValue, pointIntCol, assertInt, randInt63n, hw]
  · have hw : wrapInt64 (wrapInt64 0 - wrapInt64 10) = -10 := by decide
    simp [genValue, backwardIntCol, assertInt, randInt63n, hw]
  · have hw : wrapInt64 (wrapUint64 0) = 0 := by decide
    simp [genValue, pointUintCol, assertUint64, randInt63n, hw]
  · intro f s e hT hR
    exact ⟨_, _, genValue_float_ok h f r hT s e hR⟩

/-! ## Range of `uint` tokens -/

theorem toString_toNat (x : Int) (hx : 0 ≤ x) : toString x = toString x.toNat := by
  obtain ⟨n, rfl⟩ := Int.eq_ofNat_of_zero_le hx
  rfl

/-- Range respect of `uint` columns when the span fits `int64`: for `uint64`
bounds `s < e` with `e - s < 2^63`, and without a range for the default
`[0, 100)`, the token is the decimal rendering of a value of the interval, for
every random draw. -/
theorem uint_range_respect (h : Host) (f : FieldSchema) (r : Rng) (hT : f.Typ = "uint") :
    (f.Range = none →
      ∃ v : Nat, ∃ r1, genValue h f r = .ok (toString v, r1) ∧ v < 100) ∧
    (∀ s e : Nat, f.Range = some ⟨.uint64 s, .uint64 e⟩ → e < 2 ^ 64 → s < e →
      e - s < 2 ^ 63 →
      ∃ v : Nat, ∃ r1, genValue h f r = .ok (toString v, r1) ∧ s ≤ v ∧ v < e) := by
  constructor
  · intro hR
    have hw : wrapInt64 (wrapUint64 (100 - 0)) = 100 := by decide
    have hm0 := Int.emod_nonneg (r.peek : Int) (show (100 : Int) ≠ 0 by decide)
    have hm1 := Int.emod_lt_of_pos (r.peek : Int) (show (0 : Int) < 100 by decide)
    have e5 : wrapUint64 ((r.peek : Int) % 100) = (r.peek : Int) % 100 :=
      wrapUint64_eq _ (by omega) (by omega)
    refine ⟨((r.peek : Int) % 100).toNat, r.advance, ?_, by omega⟩
    have hcast : (((r.peek : Int) % 100).toNat : Int) = (r.peek : Int) % 100 :=
      Int.toNat_of_nonneg hm0
    have hw2 : wrapInt64 (wrapUint64 100) = 100 := by decide
    simp only [genValue, hT, hR, randInt63n]
    simp [hw2, e5]
    exact toString_toNat _ hm0
  · intro s e hR b1 b2 b3
    have e1 : wrapUint64 ((e : Int) - s) = (e : Int) - s := wrapUint64_eq _ (by omega) (by omega)
    have e3 : wrapInt64 ((e : Int) - s) = (e : Int) - s := wrapInt64_eq _ (by omega) (by omega)
    have e4 : ¬ ((e : Int) - s ≤ 0) := by omega
    have hm0 := Int.emod_nonneg (r.peek : Int) (show (e : Int) - s ≠ 0 by omega)
    have hm1 := Int.emod_lt_of_pos (r.peek : Int) (show 0 < (e : Int) - s by omega)
    have e5 : wrapUint64 ((r.peek : Int) % ((e : Int) - s)) = (r.peek : Int) % ((e : Int) - s) :=
      wrapUint64_eq _ (by omega) (by omega)
    have e6 : wrapUint64 ((r.peek : Int) % ((e : Int) - s) + s) =
        (r.peek : Int) % ((e : Int) - s) + s := wrapUint64_eq _ (by omega) (by omega)
    refine ⟨((r.peek : Int) % ((e : Int) - s) + s).toNat, r.advance, ?_, by omega, by omega⟩
    have hcast : ((((r.peek : Int) % ((e : Int) - s) + s).toNat : Nat) : Int) =
        (r.peek : Int) % ((e : Int) - s) + s := Int.toNat_of_nonneg (by omega)
    simp only [genValue, hT, hR, assertUint64, e1, e3, randInt63n, e4]
    simp [e5, e6]
    exact toString_toNat _ (by omega)

/-- A span of `2^63` or more would wrap in `int64(maxUint-minUint)`: for the
`uint64` bounds 0 and `2^63` the sampler `rand.Int63n` panics. The decoder never
produces these bounds (`yamlDecoded` is false of the `uint64` value 0). -/
theorem uint_range_overflow (h : Host) (r : Rng) :
    genValue h wideUintCol r = .error Panic.randInvalidArg ∧
    yamlDecoded (.uint64 0) = false := by
  have hw : wrapInt64 (wrapUint64 9223372036854775808) = -9223372036854775808 := by decide
  refine ⟨?_, rfl⟩
  simp [genValue, wideUintCol, assertUint64, randInt63n, hw]

theorem charset_length : charset.data.length = 62 := by decide

theorem charset_nodup : charset.data.Nodup := by decide

theorem charset_ascii : ∀ c ∈ charset.data, c.utf8Size = 1 := by decide

theorem charset_alphanum : ∀ c ∈ charset.data, c.isAlphanum = true := by decide

theorem alphanum_mem_charset (c : Char) (hc : c.isAlphanum = true) : c ∈ charset.data := by
  have hcn : Char.ofNat c.toNat = c := Char.ofNat_toNat c
  have hr : (48 ≤ c.toNat ∧ c.toNat ≤ 57) ∨ (65 ≤ c.toNat ∧ c.toNat ≤ 90) ∨
      (97 ≤ c.toNat ∧ c.toNat ≤ 122) := by
    simp only [Char.isAlphanum, Char.isAlpha, Char.isUpper, Char.isLower, Char.isDigit,
      Bool.or_eq_true, Bool.and_eq_true, decide_eq_true_eq] at hc
    have hv : c.toNat = c.val.toNat := rfl
    rw [hv]
    rcases hc with (⟨a1, a2⟩ | ⟨a1, a2⟩) | ⟨a1, a2⟩
    · right; left
      exact ⟨UInt32.le_toNat_of_le (m := 65) (by decide) a1,
        UInt32.toNat_le_of_le (m := 90) (by decide) a2⟩
    · right; right
      exact ⟨UInt32.le_toNat_of_le (m := 97) (by decide) a1,
        UInt32.toNat_le_of_le (m := 122) (by decide) a2⟩
    · left
      exact ⟨UInt32.le_toNat_of_le (m := 48) (by decide) a1,
        UInt32.toNat_le_of_le (m := 57) (by decide) a2⟩
  rw [← hcn]
  generalize c.toNat = n at hr
  rcases hr with ⟨a, b⟩ | ⟨a, b⟩ | ⟨a, b⟩ <;> interval_cases n <;> decide

theorem fillString_spec :
    ∀ (k : Nat) (r r1 : Rng) (cs : List Char), fillString k r = .ok (cs, r1) →
      cs.length = k ∧ ∀ c ∈ cs, c ∈ charset.data := by
  intro k
  induction k with
  | zero =>
    intro r r1 cs hfs
    simp [fillString] at hfs
    rw [hfs.1]; simp
  | succ k ih =>
    intro r r1 cs hfs
    cases hrec : fillString k r.advance with
    | error p => simp [fillString, randIntn, charset_size, hrec] at hfs
    | ok v =>
      obtain ⟨cs0, r2⟩ := v
      simp [fillString, randIntn, charset_size, hrec] at hfs
      obtain ⟨ih1, ih2⟩ := ih r.advance r2 cs0 hrec
      rw [← hfs.1]
      have hm0 := Int.emod_nonneg (r.peek : Int) (show (62 : Int) ≠ 0 by decide)
      have hm1 := Int.emod_lt_of_pos (r.peek : Int) (show (0 : Int) < 62 by decide)
      have hlt : ((r.peek : Int) % 62).toNat < charset.data.length := by
        rw [charset_length]; omega
      refine ⟨by simp [ih1], ?_⟩
      intro c hc
      rcases List.mem_cons.mp hc with rfl | hc
      · rw [List.getElem?_eq_getElem hlt]
        exact List.getElem_mem hlt
      · exact ih2 c hc

theorem utf8Len_ascii (cs : List Char) (h : ∀ c ∈ cs, c.utf8Size = 1) :
    String.utf8Len cs = cs.length := by
  induction cs with
  | nil => rfl
  | cons c rest ih =>
    rw [String.utf8Len_cons, ih (fun c hc => h c (by simp [hc])), h c (by simp)]
    simp

/-- Tokens of `string` columns when the largest length is within the allocation
limit and the memory of the host: for an `int` range `[a, b]` with
`0 <= a <= b`, `b <= maxAlloc` and `b <= memLimit`, and without a range for the
default `[0, 5]` on a host with `5 <= memLimit`, the token has between `a` and
`b` characters, each one byte long and taken from `charset`, for every random
draw. -/
theorem string_token_respect (h : Host) (f : FieldSchema) (r : Rng) (hT : f.Typ = "string") :
    (f.Range = none → 5 ≤ h.memLimit →
      ∃ tok r1, genValue h f r = .ok (tok, r1) ∧ tok.length ≤ 5 ∧
        tok.utf8ByteSize = tok.length ∧ ∀ c ∈ tok.data, c ∈ charset.data) ∧
    (∀ a b : Int, f.Range = some ⟨.int a, .int b⟩ → 0 ≤ a → a ≤ b → b ≤ maxAlloc →
      b ≤ h.memLimit →
      ∃ tok r1, genValue h f r = .ok (tok, r1) ∧ a ≤ tok.length ∧ (tok.length : Int) ≤ b ∧
        tok.utf8ByteSize = tok.length ∧ ∀ c ∈ tok.data, c ∈ charset.data) := by
  have hA : maxAlloc = 281474976710656 := rfl
  constructor
  · intro hR hM
    have hw : wrapInt64 (wrapInt64 5 + 1) = 6 := by decide
    have hm0 := Int.emod_nonneg (r.peek : Int) (show (6 : Int) ≠ 0 by decide)
    have hm1 := Int.emod_lt_of_pos (r.peek : Int) (show (0 : Int) < 6 by decide)
    have e5 : wrapInt64 ((r.peek : Int) % 6) = (r.peek : Int) % 6 :=
      wrapInt64_eq _ (by omega) (by omega)
    have hlen : ¬ ((r.peek : Int) % 6 < 0 ∨ maxAlloc < (r.peek : Int) % 6) := by omega
    have hmem : ¬ ((h.memLimit : Int) < (r.peek : Int) % 6) := by omega
    obtain ⟨⟨cs, r2⟩, hv⟩ := fillString_ok ((r.peek : Int) % 6).toNat r.advance
    obtain ⟨s1, s2⟩ := fillString_spec _ _ _ _ hv
    refine ⟨String.mk cs, r2, ?_, ?_, ?_, s2⟩
    · simp [genValue, hT, hR, randIntn, hw, e5, hlen, hmem, hv]
    · show cs.length ≤ 5
      omega
    · exact utf8Len_ascii cs (fun c hc => charset_ascii c (s2 c hc))
  · intro a b hR b1 b2 b4 b3
    have e1 : wrapInt64 (b - a) = b - a := wrapInt64_eq _ (by omega) (by omega)
    have e2 : wrapInt64 (b - a + 1) = b - a + 1 := wrapInt64_eq _ (by omega) (by omega)
    have e4 : ¬ (b - a + 1 ≤ 0) := by omega
    have hm0 := Int.emod_nonneg (r.peek : Int) (show b - a + 1 ≠ 0 by omega)
    have hm1 := Int.emod_lt_of_pos (r.peek : Int) (show 0 < b - a + 1 by omega)
    have e5 : wrapInt64 ((r.peek : Int) % (b - a + 1) + a) = (r.peek : Int) % (b - a + 1) + a :=
      wrapInt64_eq _ (by omega) (by omega)
    have hlen : ¬ ((r.peek : Int) % (b - a + 1) + a < 0 ∨
        maxAlloc < (r.peek : Int) % (b - a + 1) + a) := by omega
    have hmem : ¬ ((h.memLimit : Int) < (r.peek : Int) % (b - a + 1) + a) := by omega
    obtain ⟨⟨cs, r2⟩, hv⟩ := fillString_ok ((r.peek : Int) % (b - a + 1) + a).toNat r.advance
    obtain ⟨s1, s2⟩ := fillString_spec _ _ _ _ hv
    refine ⟨String.mk cs, r2, ?_, ?_, ?_, ?_, s2⟩
    · simp only [genValue, hT, hR, assertInt, randIntn, e1, e2, e4, e5, if_false]
      simp [hlen, hmem, hv]
    · show a ≤ (cs.length : Int)
      omega
    · show (cs.length : Int) ≤ b
      omega
    · exact utf8Len_ascii cs (fun c hc => charset_ascii c (s2 c hc))

/-- The size check of `make`: a `string` column whose only length is `2^62`, or
`-3`, does not pass `colOK`, and its value generation ends with the panic
`makeslice: len out of range`, for every host and every random draw; a length
within the size check but above the memory of the host ends with the fatal error
of the allocator. -/
theorem string_make_limit (h : Host) (r : Rng) :
    colOK h ⟨"c", 0, 0, some ⟨.int 4611686018427387904, .int 4611686018427387904⟩, "string"⟩
      = false ∧
    genValue h ⟨"c", 0, 0, some ⟨.int 4611686018427387904, .int 4611686018427387904⟩, "string"⟩ r
      = .error Panic.makeSliceLen ∧
    colOK h ⟨"c", 0, 0, some ⟨.int (-3), .int (-3)⟩, "string"⟩ = false ∧
    genValue h ⟨"c", 0, 0, some ⟨.int (-3), .int (-3)⟩, "string"⟩ r
      = .error Panic.makeSliceLen ∧
    colOK sampleHost ⟨"c", 0, 0, some ⟨.int 2000000, .int 2000000⟩, "string"⟩ = false ∧
    genValue sampleHost ⟨"c", 0, 0, some ⟨.int 2000000, .int 2000000⟩, "string"⟩ r
      = .error Panic.outOfMemory := by
  have hw1 : wrapInt64 (wrapInt64 0 + 1) = 1 := by decide
  have hw2 : wrapInt64 4611686018427387904 = 4611686018427387904 := by decide
  have hw3 : wrapInt64 (-3) = -3 := by decide
  have hw4 : wrapInt64 2000000 = 2000000 := by decide
  have hA : maxAlloc = 281474976710656 := rfl
  refine ⟨?_, ?_, ?_, ?_, by decide, ?_⟩
  · simp [colOK, hA]
  · simp [genValue, assertInt, randIntn, hw1, hw2, hA, Int.emod_one]
  · simp [colOK]
  · simp [genValue, assertInt, randIntn, hw1, hw3, hA, Int.emod_one]
  · simp [genValue, assertInt, randIntn, hw1, hw4, hA, Int.emod_one, sampleHost]

/-- C12 at the failing input: for the `string` column with range `[0, 2^63 - 1]`
(so `0 <= a <= b`), `maxLen-minLen+1` wraps to `-2^63` and `rand.Intn` panics,
for every host and every random draw: no token is emitted. The alphabet itself
is as claimed: `charset` has 62 pairwise distinct characters, which are exactly
the ASCII letters and digits, so neither quote character is among them. -/
theorem string_range_overflow (h : Host) (r : Rng) :
    genValue h maxLenStringCol r = .error Panic.randInvalidArg ∧
    charset.data.length = 62 ∧ charset.data.Nodup ∧
    (∀ c : Char, c ∈ charset.data ↔ c.isAlphanum = true) ∧
    Char.ofNat 39 ∉ charset.data ∧ Char.ofNat 34 ∉ charset.data := by
  have hw : wrapInt64 (wrapInt64 9223372036854775807 + 1) = -9223372036854775808 := by decide
  refine ⟨?_, charset_length, charset_nodup,
    fun c => ⟨charset_alphanum c, alphanum_mem_charset c⟩, by decide, by decide⟩
  simp [genValue, maxLenStringCol, assertInt, randIntn, hw]


/-! ## `nullable` -/

theorem entryCols_eraseNullable (typ : String) (e : FieldSchema) :
    entryCols typ e.eraseNullable = (entryCols typ e).map FieldSchema.eraseNullable := by
  by_cases h0 : e.Count = 0
  · rw [entryCols_zero typ e h0, entryCols_zero typ e.eraseNullable h0]; rfl
  · rw [entryCols_pos typ e h0, entryCols_pos typ e.eraseNullable h0, List.map_map]; rfl

theorem typeCols_eraseNullable (p : String × List FieldSchema) :
    typeCols (p.1, p.2.map FieldSchema.eraseNullable) =
      (typeCols p).map FieldSchema.eraseNullable := by
  rw [typeCols_eq, typeCols_eq]
  obtain ⟨typ, es⟩ := p
  show ((es.map FieldSchema.eraseNullable).map (entryCols typ)).flatten =
    ((es.map (entryCols typ)).flatten).map FieldSchema.eraseNullable
  induction es with
  | nil => rfl
  | cons e rest ih =>
    simp only [List.map_cons, List.flatten_cons, List.map_append, entryCols_eraseNullable, ih]

theorem NewGenerator_eraseNullable (c : Config) :
    ∃ g, NewGenerator c = .ok g ∧ NewGenerator c.eraseNullable = .ok g.eraseNullable := by
  refine ⟨_, rfl, ?_⟩
  unfold NewGenerator Generator.eraseNullable Config.eraseNullable
  simp only [foldl_types, List.nil_append, List.map_map]
  congr 2
  induction c.Schema.Fields with
  | nil => rfl
  | cons p rest ih =>
    simp only [List.map_cons, List.flatten_cons, List.map_append, Function.comp]
    rw [typeCols_eraseNullable]
    simp only [Function.comp] at ih
    rw [ih]

theorem genRow_eraseNullable (h : Host) (cols : List FieldSchema) :
    ∀ r : Rng, genRow h (cols.map FieldSchema.eraseNullable) r = genRow h cols r := by
  induction cols with
  | nil => intro r; rfl
  | cons f rest ih =>
    intro r
    have hv : genValue h f.eraseNullable r = genValue h f r := genValue_congr h _ _ r rfl rfl
    simp only [List.map_cons, genRow, hv]
    cases genValue h f r with
    | error p => rfl
    | ok v => simp only [ih]

theorem generateCreateTable_eraseNullable (g : Generator) :
    g.eraseNullable.generateCreateTable = g.generateCreateTable := by
  rw [generateCreateTable_eq, generateCreateTable_eq]
  simp only [Generator.eraseNullable, List.map_map]
  rfl

theorem rowLoop_eraseNullable (h : Host) (g : Generator) :
    ∀ (k : Nat) (i : Int) (out : List String) (builder : String) (r : Rng),
      rowLoop h g.eraseNullable k i out builder r = rowLoop h g k i out builder r := by
  intro k
  induction k with
  | zero => intro i out builder r; rfl
  | succ k ih =>
    intro i out builder r
    have hrow : genRow h g.eraseNullable.fieldDefs r = genRow h g.fieldDefs r :=
      genRow_eraseNullable h g.fieldDefs r
    have hb : g.eraseNullable.batchNum = g.batchNum := rfl
    have hn : g.eraseNullable.numRows = g.numRows := rfl
    have hh : g.eraseNullable.groupHeader = g.groupHeader := rfl
    rw [rowLoop, rowLoop, hrow, hb, hn, hh]
    cases genRow h g.fieldDefs r with
    | error p => rfl
    | ok v => simp only [ih]

theorem Generate_eraseNullable (h : Host) (g : Generator) (r : Rng) :
    g.eraseNullable.Generate h r = g.Generate h r := by
  simp only [Generator.Generate, generateCreateTable_eraseNullable, rowLoop_eraseNullable]
  rfl

/-- C16. For any two configurations that are equal except for the `nullable`
values of their field entries (their images under `eraseNullable` coincide), the
same visiting order of the type tags and the same sequence of random draws:
`NewGenerator` succeeds on both and `Generate` produces the same run, that is
the same file name, the same writes (so byte-identical file contents) and the
same outcome; the two expanded column lists differ at most in the `Nullable`
field. -/
theorem nullable_no_effect (c1 c2 : Config) (h : Host) (r : Rng)
    (heq : c1.eraseNullable = c2.eraseNullable) :
    ∃ g1 g2, NewGenerator c1 = .ok g1 ∧ NewGenerator c2 = .ok g2 ∧
      g1.Generate h r = g2.Generate h r ∧
      fileContents (g1.Generate h r).writes = fileContents (g2.Generate h r).writes ∧
      g1.fieldDefs.map FieldSchema.eraseNullable =
        g2.fieldDefs.map FieldSchema.eraseNullable := by
  obtain ⟨g1, hg1, he1⟩ := NewGenerator_eraseNullable c1
  obtain ⟨g2, hg2, he2⟩ := NewGenerator_eraseNullable c2
  rw [heq, he2] at he1
  have hg : g2.eraseNullable = g1.eraseNullable := Except.ok.inj he1
  have hrun : g1.Generate h r = g2.Generate h r := by
    rw [← Generate_eraseNullable h g1 r, ← Generate_eraseNullable h g2 r, hg]
  refine ⟨g1, g2, hg1, hg2, hrun, by rw [hrun], ?_⟩
  have := congrArg Generator.fieldDefs hg
  exact this.symm

/-- An instance of `nullable_no_effect`: two configurations with different
`nullable` values write the same file. -/
theorem nullable_no_effect_witness :
    nullableConfigA ≠ nullableConfigB ∧
    nullableConfigA.eraseNullable = nullableConfigB.eraseNullable ∧
    ∃ g1 g2, NewGenerator nullableConfigA = .ok g1 ∧ NewGenerator nullableConfigB = .ok g2 ∧
      g1.Generate sampleHost sampleRng = g2.Generate sampleHost sampleRng ∧
      fileContents (g1.Generate sampleHost sampleRng).writes =
        fileContents (g2.Generate sampleHost sampleRng).writes ∧
      g1.fieldDefs.map FieldSchema.eraseNullable =
        g2.fieldDefs.map FieldSchema.eraseNullable :=
  ⟨by decide, by decide,
    nullable_no_effect nullableConfigA nullableConfigB sampleHost sampleRng (by decide)⟩


/-! ## The length test and the direct predicate -/

theorem rowLoopDirect_spec (h : Host) (g : Generator) :
    ∀ (k : Nat) (i : Int) (out : List String) (builder : String) (w : Bool) (r : Rng),
      30 + g.tableName.utf8ByteSize ≤ builder.utf8ByteSize →
      (w = false ↔ builder.utf8ByteSize = 30 + g.tableName.utf8ByteSize) →
      (rowLoopDirect h g k i out builder w r).out = (rowLoop h g k i out builder r).out ∧
      (rowLoopDirect h g k i out builder w r).builder = (rowLoop h g k i out builder r).builder ∧
      (rowLoopDirect h g k i out builder w r).panic = (rowLoop h g k i out builder r).panic ∧
      30 + g.tableName.utf8ByteSize ≤ (rowLoop h g k i out builder r).builder.utf8ByteSize ∧
      ((rowLoopDirect h g k i out builder w r).wroteValues = false ↔
        (rowLoop h g k i out builder r).builder.utf8ByteSize =
          30 + g.tableName.utf8ByteSize) := by
  intro k
  induction k with
  | zero => intro i out builder w r h1 h2; exact ⟨rfl, rfl, rfl, h1, h2⟩
  | succ k ih =>
    intro i out builder w r h1 h2
    rw [rowLoopDirect, rowLoop]
    cases hrow : genRow h g.fieldDefs r with
    | error p => exact ⟨rfl, rfl, rfl, h1, h2⟩
    | ok v =>
      obtain ⟨row, r1⟩ := v
      have hitem : 0 < ("VALUES (" ++ stringsJoin row "," ++ ")").utf8ByteSize :=
        valuesItem_size_pos row
      have hsz : (builder ++ ("VALUES (" ++ stringsJoin row "," ++ ")")).utf8ByteSize =
          builder.utf8ByteSize + ("VALUES (" ++ stringsJoin row "," ++ ")").utf8ByteSize :=
        utf8ByteSize_append _ _
      simp only []
      by_cases hB : g.batchNum = 0
      · rw [if_pos hB, if_pos hB]
        refine ⟨rfl, rfl, rfl, by show _ ≤ (builder ++ _).utf8ByteSize; omega, ?_⟩
        constructor
        · intro hc; cases hc
        · intro hc
          have : (builder ++ ("VALUES (" ++ stringsJoin row "," ++ ")")).utf8ByteSize =
              30 + g.tableName.utf8ByteSize := hc
          omega
      · rw [if_neg hB, if_neg hB]
        by_cases hc : Int.tmod i g.batchNum = 0
        · rw [if_pos hc, if_pos hc]
          exact ih _ _ _ false r1 (by rw [groupHeader_size]) (by simp [groupHeader_size])
        · rw [if_neg hc, if_neg hc]
          by_cases hi : i ≠ g.numRows
          · rw [if_pos hi]
            have hsz2 := utf8ByteSize_append
              (builder ++ ("VALUES (" ++ stringsJoin row "," ++ ")")) ","
            exact ih _ _ _ true r1 (by omega) (by constructor <;> intro hx <;> [cases hx; omega])
          · rw [if_neg hi]
            exact ih _ _ _ true r1 (by omega) (by constructor <;> intro hx <;> [cases hx; omega])

theorem loopEnd_builder (h : Host) (g : Generator) (r : Rng) (N B : Nat) (hB : 1 ≤ B)
    (hn : g.numRows = N) (hb : g.batchNum = B) (hp : (g.loopEnd h r).panic = none) :
    ((g.loopEnd h r).builder.utf8ByteSize = 30 + g.tableName.utf8ByteSize ↔ N % B = 0) := by
  have hB0 : g.batchNum ≠ 0 := by rw [hb]; exact_mod_cast (show B ≠ 0 by omega)
  have hk : g.numRows.toNat = N := by rw [hn]; simp
  unfold Generator.loopEnd at hp ⊢
  rw [hk] at hp ⊢
  cases N with
  | zero => simp [rowLoop_zero, groupHeader_size]
  | succ k =>
    have hN : g.numRows = 1 + k := by rw [hn]; push_cast; omega
    obtain ⟨-, e2, e3⟩ := rowLoop_succ h g hB0 k 1
      (writeStrs [] g.generatePreQueries ++ [g.generateCreateTable]) [] r hN
    simp only [trail, String.append_empty] at e2 e3
    rw [e2] at hp
    rw [e3 hp, utf8ByteSize_append, groupHeader_size, hb]
    obtain ⟨-, c2⟩ := scanBy_counts B hB ((genRows h g.fieldDefs (k + 1) r).1.map valuesItem)
    rw [List.length_map, genRows_length h g.fieldDefs (k + 1) r hp] at c2
    by_cases hm : (k + 1) % B = 0
    · have hnil : (scanBy (B : Int) 1 []
          ((genRows h g.fieldDefs (k + 1) r).1.map valuesItem)).2 = [] :=
        List.length_eq_zero.mp (by omega)
      have he : ("" : String).utf8ByteSize = 0 := rfl
      simp [hnil, stringsJoin, hm, he]
    · have hne : (scanBy (B : Int) 1 []
          ((genRows h g.fieldDefs (k + 1) r).1.map valuesItem)).2 ≠ [] := by
        intro h0; rw [h0] at c2; simp at c2; omega
      have hpos : 0 < (stringsJoin (scanBy (B : Int) 1 []
          ((genRows h g.fieldDefs (k + 1) r).1.map valuesItem)).2 ",").utf8ByteSize := by
        apply stringsJoin_size_pos _ _ hne
        intro x hx
        have hmem := scanBy_rem_mem _ _ _ _ x hx
        simp only [List.nil_append, List.mem_map] at hmem
        obtain ⟨row, _, rfl⟩ := hmem
        exact valuesItem_size_pos row
      constructor
      · intro hsz; omega
      · intro h0; exact absurd h0 hm

theorem loopEnd_ok (h : Host) (g : Generator) (r : Rng) (hB : g.batchNum ≠ 0)
    (hok : ColsOK h g.fieldDefs) : (g.loopEnd h r).panic = none := by
  unfold Generator.loopEnd
  cases hk : g.numRows.toNat with
  | zero => rfl
  | succ k =>
    have hN : g.numRows = 1 + k := by omega
    obtain ⟨-, e2, -⟩ := rowLoop_succ h g hB k 1
      (writeStrs [] g.generatePreQueries ++ [g.generateCreateTable]) [] r hN
    simp only [trail, String.append_empty] at e2
    rw [e2]
    exact genRows_ok h g.fieldDefs hok (k + 1) r

theorem Generate_eq_GenerateDirect (h : Host) (g : Generator) (r : Rng) :
    g.Generate h r = g.GenerateDirect h r := by
  obtain ⟨s1, s2, s3, s4, s5⟩ := rowLoopDirect_spec h g g.numRows.toNat 1
    (writeStrs [] g.generatePreQueries ++ [g.generateCreateTable]) g.groupHeader false r
    (by rw [groupHeader_size]) (by simp [groupHeader_size])
  have hgen : g.Generate h r =
      (match (g.loopEnd h r).panic with
       | some p => (⟨g.generateFileName, (g.loopEnd h r).out, some p⟩ : Run)
       | none =>
         ⟨g.generateFileName, writeStrs
           (if (g.loopEnd h r).builder.utf8ByteSize > 0 ∧
               (g.loopEnd h r).builder.utf8ByteSize ≠ 30 + g.tableName.utf8ByteSize then
             (g.loopEnd h r).out ++ [(g.loopEnd h r).builder ++ ");\n"]
            else (g.loopEnd h r).out) g.generatePostQueries, none⟩) := rfl
  rw [hgen]
  simp only [Generator.GenerateDirect, Generator.loopEndDirect, Generator.loopEnd, s1, s2, s3]
  cases hp : (rowLoop h g g.numRows.toNat 1
      (writeStrs [] g.generatePreQueries ++ [g.generateCreateTable]) g.groupHeader r).panic with
  | some p => rfl
  | none =>
    simp only []
    cases hw : (rowLoopDirect h g g.numRows.toNat 1
        (writeStrs [] g.generatePreQueries ++ [g.generateCreateTable]) g.groupHeader false r).wroteValues with
    | false =>
      have := s5.mp hw
      simp [this]
    | true =>
      have hne : (rowLoop h g g.numRows.toNat 1
          (writeStrs [] g.generatePreQueries ++ [g.generateCreateTable]) g.groupHeader r).builder.utf8ByteSize
          ≠ 30 + g.tableName.utf8ByteSize := by
        intro hx; rw [s5.mpr hx] at hw; cases hw
      have hgt : (rowLoop h g g.numRows.toNat 1
          (writeStrs [] g.generatePreQueries ++ [g.generateCreateTable]) g.groupHeader r).builder.utf8ByteSize
          > 0 := by omega
      simp [hne, hgt]

theorem fillString_noDiv :
    ∀ (k : Nat) (r : Rng), fillString k r ≠ .error Panic.divideByZero := by
  intro k
  induction k with
  | zero => intro r hx; simp [fillString] at hx
  | succ k ih =>
    intro r hx
    have := ih r.advance
    simp only [fillString, randIntn, charset_size] at hx
    simp at hx
    cases hrec : fillString k r.advance with
    | error p =>
      rw [hrec] at hx this
      simp at hx
      rw [hx] at this
      exact this rfl
    | ok v => rw [hrec] at hx; simp at hx

theorem assertInt_noDiv (x : GoAny) : assertInt x ≠ .error Panic.divideByZero := by
  cases x <;> simp [assertInt]

theorem assertUint64_noDiv (x : GoAny) : assertUint64 x ≠ .error Panic.divideByZero := by
  cases x <;> simp [assertUint64]

theorem assertFloat64_noDiv (x : GoAny) : assertFloat64 x ≠ .error Panic.divideByZero := by
  cases x <;> simp [assertFloat64]

theorem assertTime_noDiv (x : GoAny) : assertTime x ≠ .error Panic.divideByZero := by
  cases x <;> simp [assertTime]

theorem randInt63n_noDiv (n : Int) (r : Rng) : randInt63n n r ≠ .error Panic.divideByZero := by
  unfold randInt63n; split <;> simp

theorem randIntn_noDiv (n : Int) (r : Rng) : randIntn n r ≠ .error Panic.divideByZero := by
  unfold randIntn; split <;> simp

/-- The value generator never divides by zero. -/
theorem genValue_noDiv (h : Host) (f : FieldSchema) (r : Rng) :
    genValue h f r ≠ .error Panic.divideByZero := by
  intro hx
  unfold genValue at hx
  split at hx
  · cases hR : f.Range with
    | none =>
      simp only [hR] at hx
      split at hx
      · rename_i p hr
        rw [Except.error.inj hx] at hr
        exact randInt63n_noDiv _ _ hr
      · cases hx
    | some rg =>
      simp only [hR] at hx
      cases ha : assertInt rg.Start with
      | error p =>
        simp only [ha] at hx
        rw [Except.error.inj hx] at ha
        exact assertInt_noDiv _ ha
      | ok s =>
        simp only [ha] at hx
        cases hb : assertInt rg.End with
        | error p =>
          simp only [hb] at hx
          rw [Except.error.inj hx] at hb
          exact assertInt_noDiv _ hb
        | ok e =>
          simp only [hb] at hx
          split at hx
          · rename_i p hr
            rw [Except.error.inj hx] at hr
            exact randInt63n_noDiv _ _ hr
          · cases hx
  · split at hx
    · cases hR : f.Range with
      | none =>
        simp only [hR] at hx
        simp at hx
      | some rg =>
        simp only [hR] at hx
        cases ha : assertFloat64 rg.Start with
        | error p =>
          simp only [ha] at hx
          rw [Except.error.inj hx] at ha
          exact assertFloat64_noDiv _ ha
        | ok s =>
          simp only [ha] at hx
          cases hb : assertFloat64 rg.End with
          | error p =>
            simp only [hb] at hx
            rw [Except.error.inj hx] at hb
            exact assertFloat64_noDiv _ hb
          | ok e =>
            simp only [hb] at hx
            simp at hx
    · split at hx
      · cases hR : f.Range with
        | none =>
          simp only [hR] at hx
          split at hx
          · rename_i p hr
            rw [Except.error.inj hx] at hr
            exact randInt63n_noDiv _ _ hr
          · cases hx
        | some rg =>
          simp only [hR] at hx
          cases ha : assertUint64 rg.Start with
          | error p =>
            simp only [ha] at hx
            rw [Except.error.inj hx] at ha
            exact assertUint64_noDiv _ ha
          | ok s =>
            simp only [ha] at hx
            cases hb : assertUint64 rg.End with
            | error p =>
              simp only [hb] at hx
              rw [Except.error.inj hx] at hb
              exact assertUint64_noDiv _ hb
            | ok e =>
              simp only [hb] at hx
              split at hx
              · rename_i p hr
                rw [Except.error.inj hx] at hr
                exact randInt63n_noDiv _ _ hr
              · cases hx
      · split at hx
        · cases hR : f.Range with
          | none =>
            simp only [hR] at hx
            split at hx
            · rename_i p hr
              rw [Except.error.inj hx] at hr
              exact randIntn_noDiv _ _ hr
            · split at hx
              · cases hx
              · split at hx
                · cases hx
                · split at hx
                  · rename_i p hf
                    rw [Except.error.inj hx] at hf
                    exact fillString_noDiv _ _ hf
                  · cases hx
          | some rg =>
            simp only [hR] at hx
            cases ha : assertInt rg.Start with
            | error p =>
              simp only [ha] at hx
              rw [Except.error.inj hx] at ha
              exact assertInt_noDiv _ ha
            | ok s =>
              simp only [ha] at hx
              cases hb : assertInt rg.End with
              | error p =>
                simp only [hb] at hx
                rw [Except.error.inj hx] at hb
                exact assertInt_noDiv _ hb
              | ok e =>
                simp only [hb] at hx
                split at hx
                · rename_i p hr
                  rw [Except.error.inj hx] at hr
                  exact randIntn_noDiv _ _ hr
                · split at hx
                  · cases hx
                  · split at hx
                    · cases hx
                    · split at hx
                      · rename_i p hf
                        rw [Except.error.inj hx] at hf
                        exact fillString_noDiv _ _ hf
                      · cases hx
        · split at hx
          · cases hR : f.Range with
            | none =>
              simp only [hR] at hx
              split at hx
              · rename_i p hr
                rw [Except.error.inj hx] at hr
                exact randInt63n_noDiv _ _ hr
              · cases hx
            | some rg =>
              simp only [hR] at hx
              cases ha : assertTime rg.Start with
              | error p =>
                simp only [ha] at hx
                rw [Except.error.inj hx] at ha
                exact assertTime_noDiv _ ha
              | ok s =>
                simp only [ha] at hx
                cases hb : assertTime rg.End with
                | error p =>
                  simp only [hb] at hx
                  rw [Except.error.inj hx] at hb
                  exact assertTime_noDiv _ hb
                | ok e =>
                  simp only [hb] at hx
                  split at hx
                  · rename_i p hr
                    rw [Except.error.inj hx] at hr
                    exact randInt63n_noDiv _ _ hr
                  · cases hx
          · split at hx
            · simp at hx
            · cases hx

theorem genRow_noDiv (h : Host) (cols : List FieldSchema) :
    ∀ r : Rng, genRow h cols r ≠ .error Panic.divideByZero := by
  induction cols with
  | nil => intro r hx; cases hx
  | cons f rest ih =>
    intro r hx
    rw [genRow] at hx
    split at hx
    · rename_i p hv
      rw [Except.error.inj hx] at hv
      exact genValue_noDiv h f r hv
    · split at hx
      · rename_i p hrest
        rw [Except.error.inj hx] at hrest
        exact ih _ hrest
      · cases hx

theorem genRows_noDiv (h : Host) (cols : List FieldSchema) :
    ∀ (k : Nat) (r : Rng), (genRows h cols k r).2 ≠ some Panic.divideByZero := by
  intro k
  induction k with
  | zero => intro r hx; cases hx
  | succ k ih =>
    intro r hx
    rw [genRows] at hx
    split at hx
    · rename_i p hrow
      rw [Option.some.inj hx] at hrow
      exact genRow_noDiv h cols r hrow
    · exact ih _ hx

theorem digitChar_isDigit (k : Nat) (hk : k < 10) : (Nat.digitChar k).isDigit = true := by
  interval_cases k <;> rfl

theorem appendInt_two (x : Int) (h0 : 0 ≤ x) (h1 : x < 100) :
    appendInt x 2 = String.mk [Nat.digitChar (x.natAbs / 10 % 10), Nat.digitChar (x.natAbs % 10)] := by
  have hn : x.natAbs < 10 ^ 2 := by omega
  have hx : ¬ x < 0 := by omega
  simp only [appendInt, if_neg hx, if_pos hn, fixedDigits, List.nil_append, List.cons_append]

theorem appendInt_three (x : Int) (h0 : 0 ≤ x) (h1 : x < 1000) :
    appendInt x 3 = String.mk [Nat.digitChar (x.natAbs / 10 / 10 % 10),
      Nat.digitChar (x.natAbs / 10 % 10), Nat.digitChar (x.natAbs % 10)] := by
  have hn : x.natAbs < 10 ^ 3 := by omega
  have hx : ¬ x < 0 := by omega
  simp only [appendInt, if_neg hx, if_pos hn, fixedDigits, List.nil_append, List.cons_append]

theorem appendInt_four (x : Int) (h0 : 0 ≤ x) (h1 : x < 10000) :
    appendInt x 4 = String.mk [Nat.digitChar (x.natAbs / 10 / 10 / 10 % 10),
      Nat.digitChar (x.natAbs / 10 / 10 % 10),
      Nat.digitChar (x.natAbs / 10 % 10), Nat.digitChar (x.natAbs % 10)] := by
  have hn : x.natAbs < 10 ^ 4 := by omega
  have hx : ¬ x < 0 := by omega
  simp only [appendInt, if_neg hx, if_pos hn, fixedDigits, List.nil_append, List.cons_append]

theorem civilFromDays_month_day (z : Int) :
    1 ≤ (civilFromDays z).2.1 ∧ (civilFromDays z).2.1 ≤ 12 ∧
    1 ≤ (civilFromDays z).2.2 ∧ (civilFromDays z).2.2 ≤ 31 := by
  simp only [civilFromDays]
  split <;> omega

theorem civilFromDays_year (z : Int) (h1 : -719528 ≤ z) (h2 : z < 2932897) :
    0 ≤ (civilFromDays z).1 ∧ (civilFromDays z).1 ≤ 9999 := by
  simp only [civilFromDays]
  generalize hera : (z + 719468) / 146097 = era
  generalize hdoe : (z + 719468) % 146097 = doe
  have e1 : -1 ≤ era := by omega
  have e2 : era ≤ 24 := by omega
  have d1 : 0 ≤ doe := by omega
  have d2 : doe ≤ 146096 := by omega
  have d3 : era = -1 → 146037 ≤ doe := by omega
  have d4 : era = 24 → doe ≤ 146096 - 60 := by omega
  generalize hyoe : (doe - doe / 1460 + doe / 36524 - doe / 146096) / 365 = yoe
  have y1 : 0 ≤ yoe := by omega
  have y2 : yoe ≤ 399 := by omega
  have y3 : era = -1 → yoe = 399 := by omega
  have y4 : era = -1 → 306 ≤ doe - (365 * yoe + yoe / 4 - yoe / 100) := by omega
  have y5 : yoe = 399 → doe ≤ 146096 - 60 →
      doe - (365 * yoe + yoe / 4 - yoe / 100) < 306 := by omega
  constructor
  · split <;> split <;> omega
  · split <;> split <;> omega

theorem renderStamp_truncMs (x : Int) : renderStamp (truncMs x) = renderStamp x := by
  have h1 : truncMs x / 1000000000 = x / 1000000000 := by unfold truncMs; omega
  have h2 : truncMs x % 1000000000 / 1000000 = x % 1000000000 / 1000000 := by
    unfold truncMs; omega
  simp only [renderStamp, h1, h2]

theorem truncMs_shift (x k : Int) : truncMs (x + 1000000000 * k) = truncMs x + 1000000000 * k := by
  unfold truncMs; omega

theorem renderStamp_form (x : Int) (h1 : -62167219200000000000 ≤ x)
    (h2 : x < 253402300800000000000) : stampForm (renderStamp x) = true := by
  have hz1 : -719528 ≤ x / 1000000000 / 86400 := by omega
  have hz2 : x / 1000000000 / 86400 < 2932897 := by omega
  obtain ⟨y1, y2⟩ := civilFromDays_year _ hz1 hz2
  obtain ⟨m1, m2, d1, d2⟩ := civilFromDays_month_day (x / 1000000000 / 86400)
  simp only [renderStamp]
  rw [appendInt_four _ y1 (by omega), appendInt_two _ (by omega) (by omega),
    appendInt_two _ (by omega) (by omega), appendInt_two _ (by omega) (by omega),
    appendInt_two _ (by omega) (by omega), appendInt_two _ (by omega) (by omega),
    appendInt_three _ (by omega) (by omega)]
  simp [stampForm, formOK, digitChar_isDigit, Nat.mod_lt]

theorem genValue_timestamp (h : Host) (f : FieldSchema) (r : Rng) (t0 t1 : GoTime)
    (hty : f.Typ = "timestamp")
    (hb : f.Range = some ⟨.time t0, .time t1⟩ ∨
      f.Range = none ∧ t0 = h.localMin ∧ t1 = h.localMax)
    (hlt : t0.ns < t1.ns) :
    genValue h f r =
      .ok (h.formatTime (timeAdd t0 ((r.peek : Int) % timeSub t1 t0)), r.advance) := by
  have hd : ¬ timeSub t1 t0 ≤ 0 := by
    unfold timeSub
    simp only
    split
    · omega
    · split <;> omega
  rcases hb with hb | ⟨hb, rfl, rfl⟩
  · simp [genValue, hty, hb, assertTime, randInt63n, hd]
  · simp [genValue, hty, hb, randInt63n, hd]

theorem timeSub_bounds (t0 t1 : GoTime) (hlt : t0.ns < t1.ns) :
    0 < timeSub t1 t0 ∧ timeSub t1 t0 ≤ t1.ns - t0.ns := by
  unfold timeSub
  simp only
  split
  · omega
  · split <;> omega

theorem renderStamp_examples :
    renderStamp 0 = "1970-01-01 00:00:00.000" ∧
    renderStamp (-1) = "1969-12-31 23:59:59.999" ∧
    renderStamp 1672531200123456789 = "2023-01-01 00:00:00.123" ∧
    renderStamp 1709251199999999999 = "2024-02-29 23:59:59.999" ∧
    renderStamp 4107542400000000000 = "2100-03-01 00:00:00.000" ∧
    renderStamp 253402300799999999999 = "9999-12-31 23:59:59.999" ∧
    renderStamp (-62167219200000000001) = "-0001-12-31 23:59:59.999" := by decide

theorem utcHost_civil : CivilHost utcHost (fun _ => 0) :=
  ⟨fun t => by simp [utcHost], fun _ => by decide, rfl, rfl⟩

/-- C14 (amended): on a host with the Gregorian calendar, a `timestamp` column
with range instants `t0 < t1`, or with no range and then `t0`, `t1` the default
bounds, yields a token for every draw. The token is the rendering, at the zone
offset in force, of the sampled instant `s` cut down to the millisecond, `u`.
`s` lies in `[t0, t1)` and `u` in `[t0 - (t0 mod 1ms), t1)`, hence in `[t0, t1)`
when `t0` is a whole number of milliseconds. The token has the form
`YYYY-MM-DD HH:MM:SS.mmm` when the wall clock of `s` reads a year from 0 to 9999.
With no range, `t0` and `t1` render as 2023-01-01 00:00:00.000 and
2023-12-31 23:59:59.000, `u` lies in `[t0, t1)` and the token has that form. -/
theorem timestamp_range (h : Host) (off : GoTime → Int) (hc : CivilHost h off)
    (f : FieldSchema) (r : Rng) (t0 t1 : GoTime) (hty : f.Typ = "timestamp")
    (hb : f.Range = some ⟨.time t0, .time t1⟩ ∧ t0.ns < t1.ns ∨
      f.Range = none ∧ t0 = h.localMin ∧ t1 = h.localMax) :
    ∃ (tok : String) (r1 : Rng) (s u : Int),
      genValue h f r = .ok (tok, r1) ∧
      t0.ns ≤ s ∧ s < t1.ns ∧
      u = truncMs s ∧ u % 1000000 = 0 ∧
      tok = renderStamp (u + 1000000000 * off ⟨s, t0.loc⟩) ∧
      t0.ns - t0.ns % 1000000 ≤ u ∧ u < t1.ns ∧
      (t0.ns % 1000000 = 0 → t0.ns ≤ u) ∧
      (-62167219200000000000 ≤ s + 1000000000 * off ⟨s, t0.loc⟩ →
        s + 1000000000 * off ⟨s, t0.loc⟩ < 253402300800000000000 →
        stampForm tok = true) ∧
      (f.Range = none →
        h.formatTime t0 = "2023-01-01 00:00:00.000" ∧
        h.formatTime t1 = "2023-12-31 23:59:59.000" ∧
        t0.ns ≤ u ∧ stampForm tok = true) := by
  have hlt : t0.ns < t1.ns := by
    rcases hb with hb | ⟨_, rfl, rfl⟩
    · exact hb.2
    · have a := hc.localMin
      have b := hc.localMax
      have c1 := hc.offset h.localMin
      have c2 := hc.offset h.localMax
      omega
  have hb2 : f.Range = some ⟨.time t0, .time t1⟩ ∨
      f.Range = none ∧ t0 = h.localMin ∧ t1 = h.localMax := by
    rcases hb with hb | hb
    · exact Or.inl hb.1
    · exact Or.inr hb
  have hg := genValue_timestamp h f r t0 t1 hty hb2 hlt
  obtain ⟨hd0, hd1⟩ := timeSub_bounds t0 t1 hlt
  have hm0 : 0 ≤ (r.peek : Int) % timeSub t1 t0 := Int.emod_nonneg _ (by omega)
  have hm1 : (r.peek : Int) % timeSub t1 t0 < timeSub t1 t0 := Int.emod_lt_of_pos _ hd0
  generalize (r.peek : Int) % timeSub t1 t0 = d at hg hm0 hm1
  have htok : h.formatTime (timeAdd t0 d) =
      renderStamp (truncMs (t0.ns + d) + 1000000000 * off ⟨t0.ns + d, t0.loc⟩) := by
    rw [hc.format, ← truncMs_shift, renderStamp_truncMs]
    rfl
  have hform : -62167219200000000000 ≤ t0.ns + d + 1000000000 * off ⟨t0.ns + d, t0.loc⟩ →
      t0.ns + d + 1000000000 * off ⟨t0.ns + d, t0.loc⟩ < 253402300800000000000 →
      stampForm (h.formatTime (timeAdd t0 d)) = true := by
    intro a b
    rw [hc.format]
    exact renderStamp_form _ a b
  refine ⟨h.formatTime (timeAdd t0 d), r.advance, t0.ns + d, truncMs (t0.ns + d), hg,
    by omega, by omega, rfl, by unfold truncMs; omega, htok, by unfold truncMs; omega,
    by unfold truncMs; omega, fun _ => by unfold truncMs; omega, hform, ?_⟩
  intro hnone
  rcases hb with hb | ⟨_, rfl, rfl⟩
  · rw [hb.1] at hnone; exact absurd hnone (by simp)
  · have a := hc.localMin
    have b := hc.localMax
    have c1 := hc.offset h.localMin
    have c2 := hc.offset h.localMax
    have c3 := hc.offset ⟨h.localMin.ns + d, h.localMin.loc⟩
    refine ⟨?_, ?_, by unfold truncMs; omega, hform (by omega) (by omega)⟩
    · rw [hc.format, a]; decide
    · rw [hc.format, b]; decide

theorem timestamp_range_witness :
    CivilHost utcHost (fun _ => 0) ∧
    leapCol.Typ = "timestamp" ∧
    (leapCol.Range = some ⟨.time ⟨1709208000000000000, "UTC"⟩,
        .time ⟨1709251200000000000, "UTC"⟩⟩ ∧
      (1709208000000000000 : Int) < 1709251200000000000) ∧
    ∃ (tok : String) (r1 : Rng) (s u : Int),
      genValue utcHost leapCol sampleRng = .ok (tok, r1) ∧
      1709208000000000000 ≤ s ∧ s < 1709251200000000000 ∧
      u = truncMs s ∧ u % 1000000 = 0 ∧
      tok = renderStamp (u + 1000000000 * 0) ∧
      (1709208000000000000 : Int) - 1709208000000000000 % 1000000 ≤ u ∧
      u < 1709251200000000000 ∧
      ((1709208000000000000 : Int) % 1000000 = 0 → 1709208000000000000 ≤ u) ∧
      (-62167219200000000000 ≤ s + 1000000000 * 0 →
        s + 1000000000 * 0 < 253402300800000000000 →
        stampForm tok = true) ∧
      (leapCol.Range = none →
        utcHost.formatTime ⟨1709208000000000000, "UTC"⟩ = "2023-01-01 00:00:00.000" ∧
        utcHost.formatTime ⟨1709251200000000000, "UTC"⟩ = "2023-12-31 23:59:59.000" ∧
        1709208000000000000 ≤ u ∧ stampForm tok = true) :=
  ⟨utcHost_civil, rfl, ⟨rfl, by decide⟩,
    timestamp_range utcHost (fun _ => 0) utcHost_civil leapCol sampleRng
      ⟨1709208000000000000, "UTC"⟩ ⟨1709251200000000000, "UTC"⟩ rfl
      (Or.inl ⟨rfl, by decide⟩)⟩

theorem timestamp_range_fails :
    CivilHost utcHost (fun _ => 0) ∧
    (500000 : Int) < 1500000 ∧
    tokenOf (genValue utcHost subMsCol zeroRng) = some "1970-01-01 00:00:00.000" ∧
    renderStamp 0 = "1970-01-01 00:00:00.000" ∧
    (∀ u : Int, 500000 ≤ u → u < 1500000 → u % 1000000 = 0 →
      renderStamp u ≠ "1970-01-01 00:00:00.000") ∧
    (253402300799000000000 : Int) < 253402343999000000000 ∧
    tokenOf (genValue utcHost lateCol secondRng) = some "10000-01-01 00:00:00.000" ∧
    stampForm "10000-01-01 00:00:00.000" = false := by
  refine ⟨utcHost_civil, by decide, by decide, by decide, ?_, by decide, by decide, by decide⟩
  intro u h1 h2 h3
  have hu : u = 1000000 := by omega
  subst hu
  decide

end Refaker
